import Mathlib

/-!
Verification development for the storage-engine core of a disk-oriented
relational database (buffer pool manager with LRU replacement, B+-tree
index, tuple-level lock manager with deadlock detection).

The C++ sources are shallowly embedded as executable Lean definitions:
pure functions become Lean functions, mutating methods become functions
from state to state, machine ints become Nat/Int, and fallible calls
return Option.  Association containers (std::unordered_map / std::list)
are modelled as association lists; `std::priority_queue` with a
`greater<>` comparator is modelled by repeatedly extracting the
lexicographically least pair.
-/

set_option maxRecDepth 4000

namespace Bustub

/-- Lookup in an association list keyed by `Nat` (first match wins,
mirroring a map that never holds duplicate keys). -/
def alookup {α : Type} (k : Nat) : List (Nat × α) → Option α
  | [] => none
  | (k', v) :: ps => if k' = k then some v else alookup k ps

/-- Remove the entry with the given key (mirrors `map.erase(k)`). -/
def aerase {α : Type} (k : Nat) : List (Nat × α) → List (Nat × α)
  | [] => []
  | (k', v) :: ps => if k' = k then aerase k ps else (k', v) :: aerase k ps

/-- Insert-or-assign for an association list (mirrors `map[k] = v`). -/
def aset {α : Type} (k : Nat) (v : α) : List (Nat × α) → List (Nat × α)
  | [] => [(k, v)]
  | (k', v') :: ps => if k' = k then (k, v) :: ps else (k', v') :: aset k v ps

/-- Mirrors `map[k]` when the read value is used: returns the stored value
and the (possibly extended) map, default-inserting `d` on a miss, exactly
like `operator[]` on a `std::unordered_map`. -/
def agetOrInsert {α : Type} (k : Nat) (d : α) (m : List (Nat × α)) : α × List (Nat × α) :=
  match alookup k m with
  | some v => (v, m)
  | none => (d, m ++ [(k, d)])

end Bustub

/-! ## LRU replacer (src/buffer/lru_replacer.cpp)

State of `LRUReplacer`: `m_` maps a frame id to the timestamp of its
latest `Unpin` (0 meaning "not present"), `q_` is the pending-entry
min-heap of `(timestamp, frame_id)` pairs, `sz_` counts live entries,
`ts_cnt_` is the next timestamp (starting at 1), `max_size_` is the
pool size passed to the constructor. -/

namespace Bustub

structure LRUReplacer where
  m : List (Nat × Nat)
  q : List (Nat × Nat)
  sz : Nat
  tsCnt : Nat
  maxSize : Nat
  deriving Repr, DecidableEq

/-- Constructor `LRUReplacer(num_pages)`. -/
def lruInit (numPages : Nat) : LRUReplacer :=
  { m := [], q := [], sz := 0, tsCnt := 1, maxSize := numPages }

/-- Read of `m_[frame_id]` where only the value is consumed; a missing key
reads as 0 ("absent").  The C++ `operator[]` also materialises a `0`
entry, which is observationally identical to absence, so the embedding
keeps the map free of 0-valued entries. -/
def mGet (m : List (Nat × Nat)) (f : Nat) : Nat :=
  (alookup f m).getD 0

/-- Lexicographic order on `(timestamp, frame_id)` pairs: the element a
`std::priority_queue<pair<int,int>, vector<...>, greater<>>` exposes at
`top()` is the least pair in this order. -/
def pairLe (a b : Nat × Nat) : Bool :=
  a.1 < b.1 || (a.1 = b.1 && a.2 ≤ b.2)

/-- Least pair of a nonempty list under `pairLe` (the heap's `top()`). -/
def qMin : List (Nat × Nat) → Option (Nat × Nat)
  | [] => none
  | p :: ps =>
    match qMin ps with
    | none => some p
    | some r => some (if pairLe p r then p else r)

/-- One `top(); pop()` step: extract the least pair, keeping the rest. -/
def qPopMin (q : List (Nat × Nat)) : Option ((Nat × Nat) × List (Nat × Nat)) :=
  match qMin q with
  | none => none
  | some p => some (p, q.erase p)

/-- The pop-until-valid loop in `LRUReplacer::Victim`: pop entries while a
popped `(timestamp, f_id)` is stale (`m_[f_id] != timestamp`); on the
first live entry erase the frame from `m_` and report it.  `fuel` is the
entry queue length, which bounds the number of pops. -/
def victimLoop (m : List (Nat × Nat)) :
    Nat → List (Nat × Nat) → Option Nat × List (Nat × Nat) × List (Nat × Nat)
  | 0, q => (none, m, q)
  | fuel + 1, q =>
    match qPopMin q with
    | none => (none, m, q)
    | some ((ts, fid), q') =>
      if mGet m fid = ts then (some fid, aerase fid m, q')
      else victimLoop m fuel q'

/-- `LRUReplacer::Victim`: fail when no frame is eligible, otherwise pop
heap entries until one matches `m_` and evict that frame.  (The C++
`frame_id == nullptr` guard is dead for the callers modelled here, which
always pass a valid out-pointer.) -/
def lruVictim (s : LRUReplacer) : Option Nat × LRUReplacer :=
  if s.sz = 0 then (none, s)
  else
    match victimLoop s.m s.q.length s.q with
    | (some fid, m', q') => (some fid, { s with m := m', q := q', sz := s.sz - 1 })
    | (none, _, q') => (none, { s with q := q' })

/-- `LRUReplacer::Pin`: remove the frame from eligibility; no-op when the
frame is not present. -/
def lruPin (s : LRUReplacer) (f : Nat) : LRUReplacer :=
  if mGet s.m f = 0 then s
  else { s with m := aerase f s.m, sz := s.sz - 1 }

/-- The `while (sz_ >= max_size_)` loop of `LRUReplacer::Unpin`, which
calls `Victim` to make room.  `fuel` bounds the iterations; with
`max_size_ ≥ 1` and the representation invariant a single iteration ever
runs (the C++ loop would spin forever when `max_size_ = 0`). -/
def evictUntilRoom : Nat → LRUReplacer → LRUReplacer
  | 0, s => s
  | fuel + 1, s =>
    if s.maxSize ≤ s.sz then evictUntilRoom fuel (lruVictim s).2
    else s

/-- `LRUReplacer::Unpin`: no-op when the frame is already present;
otherwise evict until below capacity, then record the frame with a fresh
(largest-so-far) timestamp in both `m_` and `q_`. -/
def lruUnpin (s : LRUReplacer) (f : Nat) : LRUReplacer :=
  if mGet s.m f ≠ 0 then s
  else
    let s' := evictUntilRoom (s.sz + 1) s
    { s' with
      m := s'.m ++ [(f, s'.tsCnt)]
      q := s'.q ++ [(s'.tsCnt, f)]
      sz := s'.sz + 1
      tsCnt := s'.tsCnt + 1 }

/-- `LRUReplacer::Size`. -/
def lruSize (s : LRUReplacer) : Nat := s.sz

end Bustub
/-! ## Buffer pool manager instance (src/buffer/buffer_pool_manager_instance.cpp)

A frame pairs page bytes (abstracted to a single `Nat`) with its
metadata.  `pageId = -1` is `INVALID_PAGE_ID`.  The disk manager is
modelled as an association map from page id to bytes plus the list of
deallocated page ids; `ReadPage` of a never-written page yields zeroed
bytes. -/

namespace Bustub

structure Frame where
  pageId : Int
  pinCount : Nat
  dirty : Bool
  data : Nat
  deriving Repr, DecidableEq

/-- Freshly constructed frame (`Page` default state). -/
def frameInit : Frame := { pageId := -1, pinCount := 0, dirty := false, data := 0 }

/-- Disk-manager state: page contents plus the deallocation log. -/
structure Disk where
  contents : List (Int × Nat)
  deallocated : List Int
  deriving Repr, DecidableEq

def diskRead (d : Disk) (pid : Int) : Nat :=
  ((d.contents.find? (fun p => p.1 = pid)).map Prod.snd).getD 0

def diskWrite (d : Disk) (pid : Int) (bytes : Nat) : Disk :=
  { d with contents := (pid, bytes) :: d.contents.filter (fun p => p.1 ≠ pid) }

structure BPM where
  pageTable : List (Int × Nat)
  pages : List Frame
  freeList : List Nat
  repl : LRUReplacer
  disk : Disk
  nextPageId : Int
  numInstances : Int
  deriving Repr, DecidableEq

/-- Constructor `BufferPoolManagerInstance(pool_size, ...)` for a
non-sharded instance (`num_instances = 1`, `instance_index = 0`). -/
def bpmInit (poolSize : Nat) : BPM :=
  { pageTable := []
    pages := List.replicate poolSize frameInit
    freeList := List.range poolSize
    repl := lruInit poolSize
    disk := { contents := [], deallocated := [] }
    nextPageId := 0
    numInstances := 1 }

def ptLookup (s : BPM) (pid : Int) : Option Nat :=
  (s.pageTable.find? (fun p => p.1 = pid)).map Prod.snd

def ptErase (pid : Int) (t : List (Int × Nat)) : List (Int × Nat) :=
  t.filter (fun p => p.1 ≠ pid)

def ptSet (pid : Int) (fid : Nat) (t : List (Int × Nat)) : List (Int × Nat) :=
  (pid, fid) :: ptErase pid t

def frameAt (s : BPM) (fid : Nat) : Frame := s.pages.getD fid frameInit

def setFrame (s : BPM) (fid : Nat) (fr : Frame) : BPM :=
  { s with pages := s.pages.set fid fr }

/-- `BufferPoolManagerInstance::AllocatePage` (the `ValidatePageId`
assertion always holds for a single instance). -/
def bpmAllocatePage (s : BPM) : Int × BPM :=
  (s.nextPageId, { s with nextPageId := s.nextPageId + s.numInstances })

/-- `BufferPoolManagerInstance::FetchPgImp`.  Returns the frame id holding
the page (standing in for the returned `Page *`), or `none` for the null
result when every frame is pinned. -/
def bpmFetch (s : BPM) (pid : Int) : Option Nat × BPM :=
  match ptLookup s pid with
  | some fid =>
    let fr := frameAt s fid
    let s := setFrame s fid { fr with pinCount := fr.pinCount + 1 }
    (some fid, { s with repl := lruPin s.repl fid })
  | none =>
    if s.freeList = [] && lruSize s.repl = 0 then (none, s)
    else
      match s.freeList with
      | fid :: rest =>
        let s := { s with freeList := rest }
        let fr := { pageId := pid, pinCount := 1, dirty := false, data := diskRead s.disk pid }
        (some fid, setFrame { s with pageTable := ptSet pid fid s.pageTable } fid fr)
      | [] =>
        match lruVictim s.repl with
        | (none, repl') => (none, { s with repl := repl' })
        | (some fid, repl') =>
          let s := { s with repl := repl' }
          let victim := frameAt s fid
          let s := if victim.dirty
            then { s with disk := diskWrite s.disk victim.pageId victim.data }
            else s
          let s := { s with pageTable := ptErase victim.pageId s.pageTable }
          let s := setFrame s fid frameInit
          let fr := { pageId := pid, pinCount := 1, dirty := false, data := diskRead s.disk pid }
          (some fid, setFrame { s with pageTable := ptSet pid fid s.pageTable } fid fr)

/-- `BufferPoolManagerInstance::UnpinPgImp`: fails when the page is not
resident or its pin count is already 0; otherwise ors the dirty flag with
the argument, decrements the pin, and hands the frame to the replacer
when the pin reaches 0. -/
def bpmUnpin (s : BPM) (pid : Int) (isDirty : Bool) : Bool × BPM :=
  match ptLookup s pid with
  | none => (false, s)
  | some fid =>
    let fr := frameAt s fid
    if fr.pinCount = 0 then (false, s)
    else
      let dirty' := if fr.dirty then fr.dirty else isDirty
      let pin' := fr.pinCount - 1
      let s := setFrame s fid { fr with dirty := dirty', pinCount := pin' }
      if pin' = 0 then (true, { s with repl := lruUnpin s.repl fid })
      else (true, s)

/-- `BufferPoolManagerInstance::DeletePgImp`: trivially succeeds when the
page is not resident; fails when pinned; otherwise flushes dirty bytes,
resets the frame, removes the mapping, returns the frame to the free
list and deallocates the page on disk. -/
def bpmDelete (s : BPM) (pid : Int) : Bool × BPM :=
  match ptLookup s pid with
  | none => (true, s)
  | some fid =>
    let fr := frameAt s fid
    if 0 < fr.pinCount then (false, s)
    else
      let s := if fr.dirty then { s with disk := diskWrite s.disk fr.pageId fr.data } else s
      let s := setFrame s fid frameInit
      let s := { s with pageTable := ptErase pid s.pageTable }
      let s := { s with repl := lruPin s.repl fid }
      let s := { s with freeList := s.freeList ++ [fid] }
      (true, { s with disk := { s.disk with deallocated := s.disk.deallocated ++ [pid] } })

/-- `BufferPoolManagerInstance::NewPgImp`: take a frame from the free
list, else evict a victim (flushing it when dirty), allocate a fresh page
id, and install a zeroed pinned frame. -/
def bpmNewPage (s : BPM) : Option Int × BPM :=
  if s.freeList = [] && lruSize s.repl = 0 then (none, s)
  else
    let pick : Option (Nat × BPM) :=
      match s.freeList with
      | fid :: rest => some (fid, { s with freeList := rest })
      | [] =>
        match lruVictim s.repl with
        | (none, _) => none
        | (some fid, repl') =>
          let s := { s with repl := repl' }
          let victim := frameAt s fid
          let s := if victim.dirty
            then { s with disk := diskWrite s.disk victim.pageId victim.data }
            else s
          some (fid, { s with pageTable := ptErase victim.pageId s.pageTable })
    match pick with
    | none => (none, s)
    | some (fid, s) =>
      let (pid, s) := bpmAllocatePage s
      let s := { s with pageTable := ptSet pid fid s.pageTable }
      (some pid, setFrame s fid { pageId := pid, pinCount := 1, dirty := false, data := 0 })

end Bustub
/-! ## Representation invariant and concrete scenario states -/

namespace Bustub

/-- Representation invariant of `LRUReplacer` maintained by the C++
operations: `sz_` counts the entries of `m_`, frame keys are unique,
every live `m_` entry has a matching heap entry, timestamps are positive
and below `ts_cnt_`, and the eligible set never exceeds the capacity. -/
def lruWF (s : LRUReplacer) : Prop :=
  s.sz = s.m.length ∧
  (s.m.map Prod.fst).Nodup ∧
  (∀ p ∈ s.m, (p.2, p.1) ∈ s.q) ∧
  (∀ p ∈ s.q, 0 < p.1 ∧ p.1 < s.tsCnt) ∧
  (∀ p ∈ s.m, 0 < p.2 ∧ p.2 < s.tsCnt) ∧
  s.sz ≤ s.maxSize

instance (s : LRUReplacer) : Decidable (lruWF s) := by
  unfold lruWF; infer_instance

/-- Replacer of capacity 1 after `Unpin(1)`. -/
def lruScene1 : LRUReplacer := lruUnpin (lruInit 1) 1

/-- Replacer of capacity 1 after `Unpin(1); Unpin(2)`. -/
def lruScene2 : LRUReplacer := lruUnpin lruScene1 2

/-- Buffer pool of size 3 after `FetchPage(1); FetchPage(2); FetchPage(3)`
with no unpins: every frame stays pinned. -/
def bpmScene3 : BPM :=
  (bpmFetch ((bpmFetch ((bpmFetch (bpmInit 3) 1).2) 2).2) 3).2

/-- Buffer pool of size 3 after fetching and unpinning pages 1, 2, 3 in
order, so frames are eligible for eviction in that order. -/
def bpmScene3u : BPM :=
  (bpmUnpin (bpmFetch ((bpmUnpin (bpmFetch ((bpmUnpin (bpmFetch (bpmInit 3) 1).2 1 false).2) 2).2 2 false).2) 3).2 3 false).2

/-- Pool of size 1 holding page 5 pinned once (for the unpin dirty-flag
claims). -/
def bpmScene5 : BPM := (bpmFetch (bpmInit 1) 5).2

/-- Pool of size 1 holding page 5, resident, unpinned and dirty (for the
delete-page claims). -/
def bpmScene5d : BPM := (bpmUnpin bpmScene5 5 true).2

end Bustub
/-! ## Lock manager (src/concurrency/lock_manager.cpp)

Record ids and transaction ids are both `Nat`.  A lock call either
returns a `Bool`, throws a `TransactionAbortException`, blocks on the
per-record condition variable (the state after enqueuing is returned so
other threads can be run against it), or trips a `BUSTUB_ASSERT`.  The
post-wait code of a blocking call is modelled separately as a `resume`
function, which a woken waiter executes once `granted_` was set or its
transaction was aborted. -/

namespace Bustub

inductive LockMode where
  | shared
  | exclusive
  deriving Repr, DecidableEq

inductive TxnState where
  | growing
  | shrinking
  | committed
  | aborted
  deriving Repr, DecidableEq

inductive IsoLevel where
  | readUncommitted
  | readCommitted
  | repeatableRead
  deriving Repr, DecidableEq

inductive AbortReason where
  | lockOnShrinking
  | lockSharedOnReadUncommitted
  | upgradeConflict
  | deadlock
  deriving Repr, DecidableEq

structure LockRequest where
  tid : Nat
  mode : LockMode
  granted : Bool := false
  deriving Repr, DecidableEq

structure LockRequestQueue where
  queue : List LockRequest := []
  upgrading : Bool := false
  deriving Repr, DecidableEq

structure Txn where
  state : TxnState := TxnState.growing
  iso : IsoLevel := IsoLevel.repeatableRead
  sharedSet : List Nat := []
  exclSet : List Nat := []
  deriving Repr, DecidableEq

structure LMState where
  lockTable : List (Nat × LockRequestQueue) := []
  lockMap : List (Nat × LockMode) := []
  lockHolder : List (Nat × List Nat) := []
  txns : List (Nat × Txn) := []
  deriving Repr, DecidableEq

inductive LockRes where
  | ret (b : Bool)
  | thrown (r : AbortReason)
  | blocked
  | assertFail
  deriving Repr, DecidableEq

/-- Transaction lookup; the lock manager dereferences a caller-provided
`Transaction *`, so a default-constructed transaction stands in for ids
not in the table (never exercised by the theorems below). -/
def txnGet (s : LMState) (tid : Nat) : Txn :=
  (alookup tid s.txns).getD {}

def txnSet (s : LMState) (tid : Nat) (t : Txn) : LMState :=
  { s with txns := aset tid t s.txns }

/-- Holder set `lock_holder_[rid]` read with default-empty semantics. -/
def holderGet (s : LMState) (rid : Nat) : List Nat :=
  (alookup rid s.lockHolder).getD []

/-- `LockManager::Granted_`: scan the record's request queue for the
transaction's request and report its `granted_` flag (false when the
request is missing, after the C++ error log). -/
def lmGranted (s : LMState) (tid : Nat) (rid : Nat) : Bool :=
  let lrq := (alookup rid s.lockTable).getD {}
  match lrq.queue.find? (fun r => r.tid = tid) with
  | some r => r.granted
  | none => false

/-- `LockManager::EraseLockRequest_`: drop the first request of the
transaction from the record's queue. -/
def lmEraseLockRequest (s : LMState) (tid : Nat) (rid : Nat) : LMState :=
  let lrq := (alookup rid s.lockTable).getD {}
  let q' := match lrq.queue.find? (fun r => r.tid = tid) with
    | some r => lrq.queue.erase r
    | none => lrq.queue
  { s with lockTable := aset rid { lrq with queue := q' } s.lockTable }

/-- Append a request to `lock_table_[rid].request_queue_`
(`operator[]` default-constructs the queue on a miss). -/
def lmEnqueue (s : LMState) (rid : Nat) (req : LockRequest) : LMState :=
  let lrq := (alookup rid s.lockTable).getD {}
  { s with lockTable := aset rid { lrq with queue := lrq.queue ++ [req] } s.lockTable }

/-- `LockManager::LockShared` up to its first suspension point.  Mirrors
the C++ order of checks: SHRINKING aborts, ABORTED returns false, the
GROWING assertion, the READ_UNCOMMITTED rejection, the already-holds
fast path, then under the latch the `lock_map_[rid]` read (which
default-inserts `SHARED`) decides between blocking behind a held
exclusive lock and granting immediately. -/
def lockShared (s : LMState) (tid : Nat) (rid : Nat) : LockRes × LMState :=
  let t := txnGet s tid
  if t.state = TxnState.shrinking then
    (LockRes.thrown AbortReason.lockOnShrinking,
      txnSet s tid { t with state := TxnState.aborted })
  else if t.state = TxnState.aborted then (LockRes.ret false, s)
  else if t.state ≠ TxnState.growing then (LockRes.assertFail, s)
  else if t.iso = IsoLevel.readUncommitted then
    (LockRes.thrown AbortReason.lockSharedOnReadUncommitted,
      txnSet s tid { t with state := TxnState.aborted })
  else if rid ∈ t.sharedSet ∨ rid ∈ t.exclSet then (LockRes.ret true, s)
  else
    let (mode, lockMap') := agetOrInsert rid LockMode.shared s.lockMap
    let s := { s with lockMap := lockMap' }
    if mode = LockMode.exclusive then
      (LockRes.blocked, lmEnqueue s rid { tid := tid, mode := LockMode.shared })
    else
      let s := { s with lockMap := aset rid LockMode.shared s.lockMap }
      let s := txnSet s tid { t with sharedSet := t.sharedSet ++ [rid] }
      let hs := holderGet s rid
      (LockRes.ret true,
        { s with lockHolder := aset rid (if tid ∈ hs then hs else hs ++ [tid]) s.lockHolder })

/-- Post-wait continuation of `LockShared` for a woken waiter: erase the
request, throw `DEADLOCK` when the transaction was aborted, otherwise
record the granted shared lock. -/
def resumeLockShared (s : LMState) (tid : Nat) (rid : Nat) : LockRes × LMState :=
  let s := lmEraseLockRequest s tid rid
  let t := txnGet s tid
  if t.state = TxnState.aborted then (LockRes.thrown AbortReason.deadlock, s)
  else
    let s := { s with lockMap := aset rid LockMode.shared s.lockMap }
    let s := txnSet s tid { t with sharedSet := t.sharedSet ++ [rid] }
    let hs := holderGet s rid
    (LockRes.ret true,
      { s with lockHolder := aset rid (if tid ∈ hs then hs else hs ++ [tid]) s.lockHolder })

/-- `LockManager::LockExclusive` up to its first suspension point.  The
`BUSTUB_ASSERT(!txn->IsSharedLocked(rid))` becomes `assertFail`; a held
exclusive lock returns true immediately; any entry in `lock_map_`
(shared or exclusive) makes the request queue up and block. -/
def lockExclusive (s : LMState) (tid : Nat) (rid : Nat) : LockRes × LMState :=
  let t := txnGet s tid
  if t.state = TxnState.shrinking then
    (LockRes.thrown AbortReason.lockOnShrinking,
      txnSet s tid { t with state := TxnState.aborted })
  else if t.state = TxnState.aborted then (LockRes.ret false, s)
  else if t.state ≠ TxnState.growing then (LockRes.assertFail, s)
  else if rid ∈ t.sharedSet then (LockRes.assertFail, s)
  else if rid ∈ t.exclSet then (LockRes.ret true, s)
  else if (alookup rid s.lockMap).isSome then
    (LockRes.blocked, lmEnqueue s rid { tid := tid, mode := LockMode.exclusive })
  else
    let s := { s with lockMap := aset rid LockMode.exclusive s.lockMap }
    let s := txnSet s tid { t with exclSet := t.exclSet ++ [rid] }
    let hs := holderGet s rid
    (LockRes.ret true,
      { s with lockHolder := aset rid (if tid ∈ hs then hs else hs ++ [tid]) s.lockHolder })

/-- Post-wait continuation of `LockExclusive`. -/
def resumeLockExclusive (s : LMState) (tid : Nat) (rid : Nat) : LockRes × LMState :=
  let s := lmEraseLockRequest s tid rid
  let t := txnGet s tid
  if t.state = TxnState.aborted then (LockRes.thrown AbortReason.deadlock, s)
  else
    let s := { s with lockMap := aset rid LockMode.exclusive s.lockMap }
    let s := txnSet s tid { t with exclSet := t.exclSet ++ [rid] }
    let hs := holderGet s rid
    (LockRes.ret true,
      { s with lockHolder := aset rid (if tid ∈ hs then hs else hs ++ [tid]) s.lockHolder })

/-- One iteration body of `LockManager::GrantLockRequestQueue_` threading
the scan over the queue: grants contiguous shared requests from the
head, one exclusive request when nothing is held, or a sole-holder
upgrade, and stops at the first non-grantable request.  Returns the
processed queue, the updated lock map, and whether anything was
granted.  The `lock_map_[rid]` reads use `operator[]` default-insert
semantics exactly where the C++ evaluates them. -/
def grantScan (rid : Nat) (upgrading : Bool) (holders : List Nat) :
    List LockRequest → List (Nat × LockMode) → Bool →
    List LockRequest × List (Nat × LockMode) × Bool
  | [], lockMap, granted => ([], lockMap, granted)
  | req :: rest, lockMap, granted =>
    if req.mode = LockMode.shared then
      let (mode, lockMap) := agetOrInsert rid LockMode.shared lockMap
      if mode ≠ LockMode.exclusive then
        let lockMap := aset rid LockMode.shared lockMap
        let (rest', lockMap', granted') := grantScan rid upgrading holders rest lockMap true
        ({ req with granted := true } :: rest', lockMap', granted')
      else (req :: rest, lockMap, granted)
    else if (alookup rid lockMap).isNone then
      (({ req with granted := true } :: rest), aset rid LockMode.exclusive lockMap, true)
    else if upgrading ∧ alookup rid lockMap = some LockMode.shared ∧
        holders = [req.tid] then
      (({ req with granted := true } :: rest), aset rid LockMode.exclusive lockMap, true)
    else (req :: rest, lockMap, granted)

/-- `LockManager::GrantLockRequestQueue_` on the whole state: run the
grant scan over `lock_table_[rid]` and store the results. -/
def grantLockRequestQueue (s : LMState) (rid : Nat) : Bool × LMState :=
  let lrq := (alookup rid s.lockTable).getD {}
  let (q', lockMap', granted) :=
    grantScan rid lrq.upgrading (holderGet s rid) lrq.queue s.lockMap false
  (granted,
    { s with
      lockTable := aset rid { lrq with queue := q' } s.lockTable
      lockMap := lockMap' })

/-- `LockManager::Unlock`: drive the 2PL GROWING→SHRINKING transition
(REPEATABLE_READ only), succeed as a no-op when the transaction holds no
lock on the record, otherwise remove it from the holder set (erasing the
record's entries when it was the last holder), re-grant the queue, and
clear the transaction's lock sets.  Always returns true. -/
def lmUnlock (s : LMState) (tid : Nat) (rid : Nat) : Bool × LMState :=
  let t := txnGet s tid
  let s := if t.iso = IsoLevel.repeatableRead ∧ t.state = TxnState.growing then
      txnSet s tid { t with state := TxnState.shrinking }
    else s
  if (alookup rid s.lockHolder).isNone ∨ tid ∉ holderGet s rid then (true, s)
  else
    let hs := (holderGet s rid).erase tid
    let s := if hs = [] then
        { s with lockHolder := aerase rid s.lockHolder, lockMap := aerase rid s.lockMap }
      else { s with lockHolder := aset rid hs s.lockHolder }
    let (_, s) := grantLockRequestQueue s rid
    let t := txnGet s tid
    (true, txnSet s tid { t with sharedSet := t.sharedSet.erase rid,
                                 exclSet := t.exclSet.erase rid })

end Bustub
/-! ## Deadlock detection graph (src/concurrency/lock_manager.cpp)

`waits_for_` is an adjacency map from a transaction id to the ids it
waits for.  `SortGraph_` sorts every adjacency list and the source list
ascending; `DFS_` keeps the current path in `visited` (inserting a node
on entry and erasing a child after an unsuccessful recursive call) and
reports a cycle when it re-enters a node on the path; `HasCycle` then
takes the largest id of the final `visited` set as the victim.  The C++
recursion carries no explicit bound, so the embedding uses fuel and
signals exhaustion with `none`; the theorems are evaluated with fuel
large enough that exhaustion does not occur. -/

namespace Bustub

def adjOf (g : List (Nat × List Nat)) (n : Nat) : List Nat :=
  (alookup n g).getD []

def sortInsert (x : Nat) : List Nat → List Nat
  | [] => [x]
  | y :: ys => if x ≤ y then x :: y :: ys else y :: sortInsert x ys

def sortNat : List Nat → List Nat
  | [] => []
  | x :: xs => sortInsert x (sortNat xs)

/-- The sibling loop of `LockManager::DFS_`: try each next node in turn;
after a recursive call returns false, erase that node again (the C++
`visited->erase(next)`), restoring the path. -/
def dfsList (f : Nat → List Nat → Option (Bool × List Nat)) :
    List Nat → List Nat → Option (Bool × List Nat)
  | [], v => some (false, v)
  | n :: ns, v =>
    match f n v with
    | some (true, v') => some (true, v')
    | some (false, v') => dfsList f ns (v'.erase n)
    | none => none

/-- `LockManager::DFS_` with fuel. -/
def dfsAux (g : List (Nat × List Nat)) : Nat → Nat → List Nat → Option (Bool × List Nat)
  | 0, _, _ => none
  | fuel + 1, src, visited =>
    if src ∈ visited then some (true, visited)
    else dfsList (dfsAux g fuel) (adjOf g src) (src :: visited)

def listMaxNat : List Nat → Nat
  | [] => 0
  | x :: xs => max x (listMaxNat xs)

/-- The source loop of `LockManager::HasCycle`: DFS from each source in
ascending order; on the first cycle report the LARGEST transaction id of
the whole `visited` set (the C++ sorts `circle` descending and takes
`circle[0]`). -/
def hasCycleLoop (g : List (Nat × List Nat)) (fuel : Nat) :
    List Nat → Option (Option Nat)
  | [] => some none
  | src :: rest =>
    match dfsAux g fuel src [] with
    | none => none
    | some (true, visited) => some (some (listMaxNat visited))
    | some (false, _) => hasCycleLoop g fuel rest

/-- `LockManager::HasCycle` composed with `SortGraph_`: sort adjacency
lists and sources ascending, then run the DFS loop.  `some (some v)`
means a cycle was found with victim `v`; `some none` means no cycle;
`none` means the fuel ran out. -/
def hasCycle (fuel : Nat) (g : List (Nat × List Nat)) : Option (Option Nat) :=
  hasCycleLoop (g.map (fun p => (p.1, sortNat p.2))) fuel
    (sortNat (g.map (fun p => p.1)))

/-- One breadth step of graph reachability with accumulation; used
only to characterise which nodes lie on a genuine cycle. -/
def stepClosure (g : List (Nat × List Nat)) : Nat → List Nat → List Nat
  | 0, acc => acc
  | k + 1, acc =>
    let next := ((acc.map (fun n => adjOf g n)).flatten).filter (fun x => decide (x ∉ acc))
    if next = [] then acc else stepClosure g k (acc ++ next)

/-- Nodes reachable from `n` along one or more edges. -/
def reachableFrom (g : List (Nat × List Nat)) (n : Nat) : List Nat :=
  stepClosure g (g.length + (g.map (fun p => p.2.length)).sum + 1) (adjOf g n)

/-- A node lies on a cycle iff it can reach itself in at least one step. -/
def onCycleB (g : List (Nat × List Nat)) (n : Nat) : Bool :=
  n ∈ reachableFrom g n

/-- The wait-for graph of the C4 analysis: transaction 1 waits for 9,
9 waits for 2, and 2 and 3 wait for each other (the only cycle). -/
def waitsForG4 : List (Nat × List Nat) := [(1, [9]), (9, [2]), (2, [3]), (3, [2])]

/-- Initial lock-manager state for the FIFO scenario: transactions 1, 2,
3 all GROWING at REPEATABLE_READ with no locks. -/
def lmScene0 : LMState := { txns := [(1, {}), (2, {}), (3, {})] }

/-- After T1 acquires S on record 100. -/
def lmScene1 : LMState := (lockShared lmScene0 1 100).2

/-- After T2 requests X on record 100 and blocks. -/
def lmScene2 : LMState := (lockExclusive lmScene1 2 100).2

/-- After T3 requests S on record 100 (granted immediately by the code). -/
def lmScene3 : LMState := (lockShared lmScene2 3 100).2

/-- After T1 unlocks record 100. -/
def lmScene4 : LMState := (lmUnlock lmScene3 1 100).2

/-- After T3 unlocks record 100 (T2's queued X request becomes granted). -/
def lmScene5 : LMState := (lmUnlock lmScene4 3 100).2

/-- After the woken T2 resumes and takes the exclusive lock. -/
def lmScene6 : LMState := (resumeLockExclusive lmScene5 2 100).2

/-- State for the unlock-without-lock claim: transaction 7 GROWING at
REPEATABLE_READ holding nothing. -/
def lmScene9 : LMState := { txns := [(7, {})] }

/-- State for the re-request claim: transaction 4 GROWING at
READ_UNCOMMITTED holding X on record 100. -/
def lmScene10 : LMState :=
  { txns := [(4, { iso := IsoLevel.readUncommitted, exclSet := [100] })] }

end Bustub
/-! ## B+-tree pages (src/storage/page/b_plus_tree_leaf_page.cpp,
src/storage/page/b_plus_tree_internal_page.cpp)

Keys and record ids are `Nat` (the caller-supplied comparator is the
order on `Nat`).  A page's `array` is a fixed-capacity slot list: reads
use `getD` with the zeroed default a freshly `ResetMemory`-ed page
holds, and writes by the C++ shift loops always read each source slot
before overwriting it, so a loop's net effect is expressed as the
corresponding take/drop splice of the ORIGINAL slot list.  Slots at
indices `≥ size` keep their old (stale) contents, exactly as in the
C++, which matters for the out-of-range duplicate probe in `Insert`.
Capacities: `leaf_max` slots for a leaf, `internal_max + 1` for an
internal page (whose size may transiently reach `max + 1` before a
split). -/

namespace Bustub

structure LeafPage where
  size : Nat
  slots : List (Nat × Nat)
  next : Int
  parent : Int
  maxSize : Nat
  deriving Repr, DecidableEq

/-- `BPlusTreeLeafPage::Init` on a fresh zeroed page. -/
def leafInit (maxSize : Nat) (parent : Int) : LeafPage :=
  { size := 0, slots := List.replicate maxSize (0, 0), next := -1,
    parent := parent, maxSize := maxSize }

/-- Shared binary-search loop of `BSEqualIndex` and `BSFirstGEIndex`:
narrow `[left, right]` with an early exit on an equal middle key.  The
early exit returns `mid` with `a[mid] = key`, which makes the callers'
final slot test succeed, so returning the stop index uniformly is
faithful.  `fuel ≥ right - left` bounds the iterations. -/
def bsLeafLoop (slots : List (Nat × Nat)) (key : Nat) : Nat → Nat → Nat → Nat
  | 0, left, _ => left
  | fuel + 1, left, right =>
    if left < right then
      let mid := (right - left) / 2 + left
      let mk := (slots.getD mid (0, 0)).1
      if mk = key then mid
      else if mk < key then bsLeafLoop slots key fuel (mid + 1) right
      else bsLeafLoop slots key fuel left mid
    else left

/-- `BPlusTreeLeafPage::BSEqualIndex` (C++ returns -1 ↦ `none`). -/
def bsEqualIndex (l : LeafPage) (key : Nat) : Option Nat :=
  let i := bsLeafLoop l.slots key l.size 0 (l.size - 1)
  if (l.slots.getD i (0, 0)).1 = key then some i else none

/-- `BPlusTreeLeafPage::BSFirstGEIndex`. -/
def bsFirstGEIndex (l : LeafPage) (key : Nat) : Nat :=
  let i := bsLeafLoop l.slots key l.size 0 (l.size - 1)
  if key ≤ (l.slots.getD i (0, 0)).1 then i else l.size

/-- `BPlusTreeLeafPage::KeyAt`. -/
def leafKeyAt (l : LeafPage) (i : Nat) : Nat := (l.slots.getD i (0, 0)).1

/-- Current entries of a leaf (`array[0 .. size)`). -/
def leafEntries (l : LeafPage) : List (Nat × Nat) := l.slots.take l.size

/-- `BPlusTreeLeafPage::Insert`: find the first-greater-or-equal index,
probe `array[index]` for a duplicate — note this probe reads the slot
AT `index` even when `index = size`, i.e. a stale slot — and otherwise
shift the tail up and write the pair. -/
def leafInsert (l : LeafPage) (key val : Nat) : LeafPage :=
  let size := l.size
  let index := bsFirstGEIndex l key
  if size ≠ 0 ∧ (l.slots.getD index (0, 0)).1 = key then l
  else
    let slots' := l.slots.take index ++ (key, val) ::
      ((l.slots.drop index).take (size - index)) ++ l.slots.drop (size + 1)
    { l with slots := slots', size := size + 1 }

/-- `BPlusTreeLeafPage::MoveHalfTo` with `CopyNFrom`: move the entries
from `size / 2` upward into the fresh recipient; the donor keeps its
slots (the moved ones become stale) and shrinks to `size / 2`. -/
def leafMoveHalfTo (l r : LeafPage) : LeafPage × LeafPage :=
  let size := l.size
  let mid := size / 2
  let cnt := size - mid
  let rslots := ((l.slots.drop mid).take cnt) ++ r.slots.drop cnt
  ({ l with size := mid }, { r with slots := rslots, size := cnt })

/-- Leaf branch of `BPlusTree::Split`: init the new leaf with the donor's
parent, move the upper half, and splice the sibling chain (the new leaf
inherits the old `next`, and the old leaf points at the new page). -/
def leafSplitStep (leafMax : Nat) (l : LeafPage) (newId : Int) : LeafPage × LeafPage :=
  let r := leafInit leafMax l.parent
  let pr := leafMoveHalfTo l r
  let rafter := { pr.2 with next := pr.1.next }
  let lafter := { pr.1 with next := newId }
  (lafter, rafter)

/-- `BPlusTreeLeafPage::Lookup` via `KeyIndex = BSEqualIndex`. -/
def leafLookup (l : LeafPage) (key : Nat) : Option Nat :=
  match bsEqualIndex l key with
  | none => none
  | some i => some (l.slots.getD i (0, 0)).2

/-- `BPlusTreeLeafPage::RemoveAndDeleteRecord`: locate the key and shift
the tail down.  The C++ loop runs `array[i] = array[i+1]` for
`i ∈ [index, size)`, so it copies `array[size]` (a stale slot) into
`array[size-1]`; the splice reproduces that, including the stale
duplicate left at position `size - 1`. -/
def leafRemove (l : LeafPage) (key : Nat) : LeafPage :=
  match bsEqualIndex l key with
  | none => l
  | some index =>
    let size := l.size
    let slots' := l.slots.take index ++
      ((l.slots.drop (index + 1)).take (size - index)) ++ l.slots.drop size
    { l with slots := slots', size := size - 1 }

/-- `BPlusTreeLeafPage::MoveAllTo` (merge `l`, the right page, into
`rec`, the left page): append all current entries and update the
sibling chain. -/
def leafMoveAllTo (l rec : LeafPage) : LeafPage × LeafPage :=
  let size := l.size
  let recSize := rec.size
  let rslots := rec.slots.take recSize ++ (l.slots.take size) ++
    rec.slots.drop (recSize + size)
  ({ l with size := 0 },
   { rec with slots := rslots, size := recSize + size, next := l.next })

/-- `BPlusTreeLeafPage::MoveFirstToEndOf` with `CopyLastFrom`. -/
def leafMoveFirstToEndOf (l rec : LeafPage) : LeafPage × LeafPage :=
  let size := l.size
  let item := l.slots.getD 0 (0, 0)
  let lslots := ((l.slots.drop 1).take (size - 1)) ++ l.slots.drop (size - 1)
  let rslots := rec.slots.take rec.size ++ item :: rec.slots.drop (rec.size + 1)
  ({ l with slots := lslots, size := size - 1 },
   { rec with slots := rslots, size := rec.size + 1 })

/-- `BPlusTreeLeafPage::MoveLastToFrontOf` with `CopyFirstFrom`. -/
def leafMoveLastToFrontOf (l rec : LeafPage) : LeafPage × LeafPage :=
  let size := l.size
  let item := l.slots.getD (size - 1) (0, 0)
  let rslots := item :: rec.slots.take rec.size ++ rec.slots.drop (rec.size + 1)
  ({ l with size := size - 1 },
   { rec with slots := rslots, size := rec.size + 1 })

structure InternalPage where
  size : Nat
  slots : List (Nat × Nat)
  parent : Int
  maxSize : Nat
  deriving Repr, DecidableEq

/-- `BPlusTreeInternalPage::Init` on a fresh zeroed page. -/
def internalInit (maxSize : Nat) (parent : Int) : InternalPage :=
  { size := 0, slots := List.replicate (maxSize + 1) (0, 0),
    parent := parent, maxSize := maxSize }

def internalKeyAt (n : InternalPage) (i : Nat) : Nat := (n.slots.getD i (0, 0)).1

def internalValueAt (n : InternalPage) (i : Nat) : Nat := (n.slots.getD i (0, 0)).2

def internalSetKeyAt (n : InternalPage) (i : Nat) (k : Nat) : InternalPage :=
  { n with slots := n.slots.set i (k, (n.slots.getD i (0, 0)).2) }

/-- `BPlusTreeInternalPage::ValueIndex` (linear search; -1 ↦ `none`). -/
def internalValueIndex (n : InternalPage) (v : Nat) : Option Nat :=
  let i := (n.slots.take n.size).findIdx (fun p => p.2 = v)
  if i < n.size then some i else none

/-- Loop of `BPlusTreeInternalPage::BSFirstGIndex` (no early equal
exit; `array[0]`'s key is the ignored dummy, so `left` starts at 1). -/
def bsIntLoop (slots : List (Nat × Nat)) (key : Nat) : Nat → Nat → Nat → Nat
  | 0, left, _ => left
  | fuel + 1, left, right =>
    if left < right then
      let mid := (right - left) / 2 + left
      if (slots.getD mid (0, 0)).1 ≤ key then bsIntLoop slots key fuel (mid + 1) right
      else bsIntLoop slots key fuel left mid
    else left

/-- `BPlusTreeInternalPage::BSFirstGIndex`. -/
def bsFirstGIndex (n : InternalPage) (key : Nat) : Nat :=
  let i := bsIntLoop n.slots key n.size 1 (n.size - 1)
  if key < (n.slots.getD i (0, 0)).1 then i else n.size

/-- `BPlusTreeInternalPage::Lookup`: child whose range holds the key. -/
def internalLookup (n : InternalPage) (key : Nat) : Nat :=
  (n.slots.getD (bsFirstGIndex n key - 1) (0, 0)).2

/-- `BPlusTreeInternalPage::PopulateNewRoot`. -/
def internalPopulateNewRoot (n : InternalPage) (oldVal key newVal : Nat) : InternalPage :=
  { n with slots := (0, oldVal) :: (key, newVal) :: n.slots.drop 2, size := 2 }

/-- `BPlusTreeInternalPage::InsertNodeAfter`. -/
def internalInsertNodeAfter (n : InternalPage) (oldVal key newVal : Nat) : InternalPage :=
  match internalValueIndex n oldVal with
  | none => n
  | some index =>
    let size := n.size
    let slots' := n.slots.take (index + 1) ++ (key, newVal) ::
      ((n.slots.drop (index + 1)).take (size - index - 1)) ++ n.slots.drop (size + 1)
    { n with slots := slots', size := size + 1 }

/-- `BPlusTreeInternalPage::Remove` (by index). -/
def internalRemove (n : InternalPage) (index : Nat) : InternalPage :=
  let size := n.size
  let slots' := n.slots.take index ++
    ((n.slots.drop (index + 1)).take (size - 1 - index)) ++ n.slots.drop (size - 1)
  { n with slots := slots', size := size - 1 }

/-- `BPlusTreeInternalPage::RemoveAndReturnOnlyChild`. -/
def internalRemoveOnlyChild (n : InternalPage) : Nat × InternalPage :=
  ((n.slots.getD 0 (0, 0)).2, { n with size := 0 })

/-- `BPlusTreeInternalPage::MoveHalfTo` with `CopyNFrom`; also returns
the moved child page ids, which `CopyNFrom` re-parents through the
buffer pool (done by the tree-level caller here). -/
def internalMoveHalfTo (n r : InternalPage) : InternalPage × InternalPage × List Nat :=
  let size := n.size
  let mid := size / 2
  let cnt := size - mid
  let seg := (n.slots.drop mid).take cnt
  let rslots := seg ++ r.slots.drop cnt
  ({ n with size := mid }, { r with slots := rslots, size := cnt },
   seg.map (fun p => p.2))

/-- `BPlusTreeInternalPage::MoveAllTo` (merge right into left), with the
moved child ids for re-parenting to the recipient. -/
def internalMoveAllTo (n rec : InternalPage) (middleKey : Nat) :
    InternalPage × InternalPage × List Nat :=
  let n2 := internalSetKeyAt n 0 middleKey
  let size := n2.size
  let seg := n2.slots.take size
  let rslots := rec.slots.take rec.size ++ seg ++ rec.slots.drop (rec.size + size)
  ({ n2 with size := 0 },
   { rec with slots := rslots, size := rec.size + size },
   seg.map (fun p => p.2))

/-- `BPlusTreeInternalPage::MoveFirstToEndOf` with `CopyLastFrom`; the
moved child id is re-parented by the caller (the C++ `CopyLastFrom`
sets it to the RECIPIENT'S parent id, which the caller mirrors). -/
def internalMoveFirstToEndOf (n rec : InternalPage) (middleKey : Nat) :
    InternalPage × InternalPage × Nat :=
  let size := n.size
  let n2 := internalSetKeyAt n 0 middleKey
  let item := n2.slots.getD 0 (0, 0)
  let shifted := ((n2.slots.drop 1).take (size - 1)) ++ n2.slots.drop (size - 1)
  let n3 := internalSetKeyAt { n2 with slots := shifted } 0 0
  let rslots := rec.slots.take rec.size ++ item :: rec.slots.drop (rec.size + 1)
  ({ n3 with size := size - 1 },
   { rec with slots := rslots, size := rec.size + 1 },
   item.2)

/-- `BPlusTreeInternalPage::MoveLastToFrontOf` with `CopyFirstFrom`. -/
def internalMoveLastToFrontOf (n rec : InternalPage) (middleKey : Nat) :
    InternalPage × InternalPage × Nat :=
  let rec2 := internalSetKeyAt rec 0 middleKey
  let size := n.size
  let item := n.slots.getD (size - 1) (0, 0)
  let rslots := item :: rec2.slots.take rec2.size ++ rec2.slots.drop (rec2.size + 1)
  ({ n with size := size - 1 },
   { rec2 with slots := rslots, size := rec2.size + 1 },
   item.2)

end Bustub
/-! ## B+-tree (src/storage/index/b_plus_tree.cpp)

Pages live in an id-indexed store; `root = -1` is the empty tree.  Page
ids are allocated sequentially (the buffer pool hands out fresh ids; id
0 is the header page, so tree pages start at 1).  Latching and pinning
are concurrency artefacts with no effect on the single-threaded
functional result and are not represented.  Recursions that the C++
performs over the tree height carry fuel bounded by the store size.

The helpers `GetMinSize` and `MiddleIndex` live in headers that are not
part of the repository snapshot.  Modelled from the spec: the leaf size
interval is `[⌈(max_leaf−1)/2⌉, max_leaf−1]` and the internal interval
is `[⌈max_int/2⌉, max_int]`, giving the minimum sizes below, and the
split description ("move the upper half of entries to it (from
size/2)", "Popup key = new leaf's first key") fixes
`MiddleIndex() = GetSize() / 2`, which also matches the `size / 2`
split point hard-coded in `MoveHalfTo`. -/

namespace Bustub

/-- Modelled from the spec: missing `BPlusTreePage::GetMinSize` for leaf
pages; `⌈(max_leaf−1)/2⌉ = max_leaf / 2`. -/
def leafMinSize (m : Nat) : Nat := m / 2

/-- Modelled from the spec: missing `BPlusTreePage::GetMinSize` for
internal pages; `⌈max_int/2⌉ = (max_int + 1) / 2`. -/
def internalMinSize (m : Nat) : Nat := (m + 1) / 2

/-- Modelled from the spec: missing `MiddleIndex()`, the split point and
popup position, equal to `GetSize() / 2`. -/
def middleIndex (size : Nat) : Nat := size / 2

inductive BNode where
  | leafN (l : LeafPage)
  | internalN (n : InternalPage)
  deriving Repr, DecidableEq

def nodeParent : BNode → Int
  | BNode.leafN l => l.parent
  | BNode.internalN n => n.parent

def nodeSize : BNode → Nat
  | BNode.leafN l => l.size
  | BNode.internalN n => n.size

structure BTree where
  pages : List (Nat × BNode) := []
  root : Int := -1
  nextPageId : Nat := 1
  leafMax : Nat
  internalMax : Nat
  deriving Repr, DecidableEq

def pget (t : BTree) (pid : Nat) : Option BNode := alookup pid t.pages

def pset (t : BTree) (pid : Nat) (n : BNode) : BTree :=
  { t with pages := aset pid n t.pages }

/-- `buffer_pool_manager_->DeletePage` on a tree page. -/
def pdel (t : BTree) (pid : Nat) : BTree :=
  { t with pages := aerase pid t.pages }

def setNodeParent (t : BTree) (pid : Nat) (par : Int) : BTree :=
  match pget t pid with
  | some (BNode.leafN l) => pset t pid (BNode.leafN { l with parent := par })
  | some (BNode.internalN n) => pset t pid (BNode.internalN { n with parent := par })
  | none => t

/-- Child re-parenting performed inside `CopyNFrom`/`MoveAllTo` through
the buffer pool. -/
def adoptChildren (t : BTree) (ids : List Nat) (par : Int) : BTree :=
  ids.foldl (fun t c => setNodeParent t c par) t

/-- Descent loop of `BPlusTree::FindLeaf` (by key, `direction = 0`). -/
def findLeafGo (t : BTree) (key : Nat) : Nat → Nat → Option Nat
  | 0, _ => none
  | fuel + 1, pid =>
    match pget t pid with
    | some (BNode.leafN _) => some pid
    | some (BNode.internalN n) => findLeafGo t key fuel (internalLookup n key)
    | none => none

def findLeafId (t : BTree) (key : Nat) : Option Nat :=
  if t.root < 0 then none
  else findLeafGo t key (t.pages.length + 1) t.root.toNat

/-- `BPlusTree::GetValue` (point lookup; the empty tree finds nothing). -/
def treeGetValue (t : BTree) (key : Nat) : Option Nat :=
  match findLeafId t key with
  | none => none
  | some lid =>
    match pget t lid with
    | some (BNode.leafN l) => leafLookup l key
    | _ => none

/-- `BPlusTree::InsertIntoParent` with fuel over the tree height: create
a new root when the split node was the root, otherwise insert the popup
key into the parent and split the parent recursively on overflow
(`parent_size > internal_max`). -/
def insertIntoParent (t : BTree) (oldId : Nat) (key : Nat) (newId : Nat) :
    Nat → BTree
  | 0 => t
  | fuel + 1 =>
    match pget t oldId with
    | none => t
    | some oldNode =>
      if nodeParent oldNode < 0 then
        let rootId := t.nextPageId
        let t := { t with nextPageId := rootId + 1 }
        let newRoot := internalInit t.internalMax (-1)
        let t := { t with root := Int.ofNat rootId }
        let t := setNodeParent t oldId (Int.ofNat rootId)
        let t := setNodeParent t newId (Int.ofNat rootId)
        pset t rootId (BNode.internalN (internalPopulateNewRoot newRoot oldId key newId))
      else
        match pget t (nodeParent oldNode).toNat with
        | some (BNode.internalN p) =>
          let parentId := (nodeParent oldNode).toNat
          let p' := internalInsertNodeAfter p oldId key newId
          if t.internalMax < p'.size then
            let popup := internalKeyAt p' (middleIndex p'.size)
            let sid := t.nextPageId
            let t := { t with nextPageId := sid + 1 }
            let s0 := internalInit t.internalMax p'.parent
            let res := internalMoveHalfTo p' s0
            let safter := internalSetKeyAt res.2.1 0 0
            let t := pset (pset t parentId (BNode.internalN res.1)) sid (BNode.internalN safter)
            let t := adoptChildren t res.2.2 (Int.ofNat sid)
            insertIntoParent t parentId popup sid fuel
          else pset t parentId (BNode.internalN p')
        | _ => t

/-- `BPlusTree::InsertIntoLeaf`: find the leaf, insert, report a
duplicate as false, split when the new size reached `leaf_max` (popup =
`KeyAt(MiddleIndex())` of the just-filled leaf). -/
def insertIntoLeaf (t : BTree) (key val : Nat) : Bool × BTree :=
  match findLeafId t key with
  | none => (false, t)
  | some lid =>
    match pget t lid with
    | some (BNode.leafN l) =>
      let l' := leafInsert l key val
      if l'.size = l.size then (false, pset t lid (BNode.leafN l'))
      else if l'.size = l.maxSize then
        let popup := leafKeyAt l' (middleIndex l'.size)
        let newId := t.nextPageId
        let t := { t with nextPageId := newId + 1 }
        let pr := leafSplitStep t.leafMax l' (Int.ofNat newId)
        let t := pset (pset t lid (BNode.leafN pr.1)) newId (BNode.leafN pr.2)
        (true, insertIntoParent t lid popup newId (t.pages.length + 1))
      else (true, pset t lid (BNode.leafN l'))
    | _ => (false, t)

/-- `BPlusTree::Insert`: start a new one-leaf tree when empty, else
insert into the located leaf. -/
def treeInsert (t : BTree) (key val : Nat) : Bool × BTree :=
  if t.root < 0 then
    let pid := t.nextPageId
    let l := leafInsert (leafInit t.leafMax (-1)) key val
    let t := { t with nextPageId := pid + 1 }
    let t := pset t pid (BNode.leafN l)
    (true, { t with root := Int.ofNat pid })
  else insertIntoLeaf t key val

/-- `BPlusTree::AdjustRoot`: an empty leaf root empties the tree; an
internal root with a single child promotes that child. -/
def adjustRoot (t : BTree) (nid : Nat) : BTree :=
  match pget t nid with
  | some (BNode.leafN l) =>
    if 0 < l.size then t
    else pdel { t with root := -1 } nid
  | some (BNode.internalN n) =>
    if 1 < n.size then t
    else
      let pr := internalRemoveOnlyChild n
      let t := { t with root := Int.ofNat pr.1 }
      let t := pdel t nid
      setNodeParent t pr.1 (-1)
  | none => t

/-- `BPlusTree::GetSiblingNode`: for a leaf prefer the `next_leaf`
sibling provided it shares the parent, else the left neighbour through
the parent (`index = 1` marks "node is on the right").  For an internal
node pick the right neighbour by parent position, else the left. -/
def getSiblingNode (t : BTree) (nid : Nat) : Option (Nat × Nat) :=
  match pget t nid with
  | some (BNode.leafN l) =>
    let sibOk : Bool := match (if l.next < 0 then none else pget t l.next.toNat) with
      | some sib => decide (nodeParent sib = l.parent)
      | none => false
    if l.next < 0 ∨ sibOk = false then
      match pget t l.parent.toNat with
      | some (BNode.internalN p) =>
        match internalValueIndex p nid with
        | some leafIndex => some (internalValueAt p (leafIndex - 1), 1)
        | none => none
      | _ => none
    else some (l.next.toNat, 0)
  | some (BNode.internalN n) =>
    match pget t n.parent.toNat with
    | some (BNode.internalN p) =>
      match internalValueIndex p nid with
      | some i =>
        if i < p.size - 1 then some (internalValueAt p (i + 1), 0)
        else some (internalValueAt p (i - 1), 1)
      | none => none
    | _ => none
  | none => none

/-- `BPlusTree::Redistribute`: move one boundary entry from the sibling
into the node and update the parent separator key. -/
def redistribute (t : BTree) (sibId nid index : Nat) : BTree :=
  match pget t nid, pget t sibId with
  | some (BNode.leafN l), some (BNode.leafN sib) =>
    (match pget t l.parent.toNat with
     | some (BNode.internalN p) =>
       if index = 0 then
         let pr := leafMoveFirstToEndOf sib l
         let popupKey := leafKeyAt pr.1 0
         match internalValueIndex p sibId with
         | some popupIndex =>
           let p' := internalSetKeyAt p popupIndex popupKey
           pset (pset (pset t nid (BNode.leafN pr.2)) sibId (BNode.leafN pr.1))
             l.parent.toNat (BNode.internalN p')
         | none => t
       else
         let pr := leafMoveLastToFrontOf sib l
         let popupKey := leafKeyAt pr.2 0
         match internalValueIndex p nid with
         | some popupIndex =>
           let p' := internalSetKeyAt p popupIndex popupKey
           pset (pset (pset t nid (BNode.leafN pr.2)) sibId (BNode.leafN pr.1))
             l.parent.toNat (BNode.internalN p')
         | none => t
     | _ => t)
  | some (BNode.internalN nn), some (BNode.internalN sib) =>
    (match pget t nn.parent.toNat with
     | some (BNode.internalN p) =>
       if index = 0 then
         match internalValueIndex p sibId with
         | some middleIdx =>
           let middleKey := internalKeyAt p middleIdx
           let popupKey := internalKeyAt sib 1
           let res := internalMoveFirstToEndOf sib nn middleKey
           let t := pset (pset t nid (BNode.internalN res.2.1)) sibId (BNode.internalN res.1)
           let t := setNodeParent t res.2.2 nn.parent
           let p' := internalSetKeyAt p middleIdx popupKey
           pset t nn.parent.toNat (BNode.internalN p')
         | none => t
       else
         match internalValueIndex p nid with
         | some middleIdx =>
           let middleKey := internalKeyAt p middleIdx
           let popupKey := internalKeyAt sib (sib.size - 1)
           let res := internalMoveLastToFrontOf sib nn middleKey
           let t := pset (pset t nid (BNode.internalN res.2.1)) sibId (BNode.internalN res.1)
           let t := setNodeParent t res.2.2 nn.parent
           let p' := internalSetKeyAt p middleIdx popupKey
           pset t nn.parent.toNat (BNode.internalN p')
         | none => t
     | _ => t)
  | _, _ => t

end Bustub
namespace Bustub

/-- `BPlusTree::Coalesce`: merge the right page into the left (for
leaves concatenate and splice `next_leaf`; for internals drag the
parent separator down as the dummy and re-parent the moved children),
delete the emptied page, remove the separator from the parent, and
recurse when the parent underflows.  `cont` is the recursive
continuation (`CoalesceOrRedistribute` on the parent). -/
def coalesce (t : BTree) (sibId nid index : Nat) (cont : BTree → Nat → BTree) : BTree :=
  match pget t nid, pget t sibId with
  | some (BNode.leafN l), some (BNode.leafN sib) =>
    (match pget t l.parent.toNat with
     | some (BNode.internalN p) =>
       let parentId := l.parent.toNat
       if index = 0 then
         match internalValueIndex p sibId with
         | some delKeyIndex =>
           let pr := leafMoveAllTo sib l
           let t := pset (pset t sibId (BNode.leafN pr.1)) nid (BNode.leafN pr.2)
           let t := pdel t sibId
           let p' := internalRemove p delKeyIndex
           let t := pset t parentId (BNode.internalN p')
           if p'.size < internalMinSize p'.maxSize then cont t parentId else t
         | none => t
       else
         match internalValueIndex p nid with
         | some delKeyIndex =>
           let pr := leafMoveAllTo l sib
           let t := pset (pset t nid (BNode.leafN pr.1)) sibId (BNode.leafN pr.2)
           let t := pdel t nid
           let p' := internalRemove p delKeyIndex
           let t := pset t parentId (BNode.internalN p')
           if p'.size < internalMinSize p'.maxSize then cont t parentId else t
         | none => t
     | _ => t)
  | some (BNode.internalN nn), some (BNode.internalN sib) =>
    (match pget t nn.parent.toNat with
     | some (BNode.internalN p) =>
       let parentId := nn.parent.toNat
       if index = 0 then
         match internalValueIndex p sibId with
         | some delKeyIndex =>
           let middleKey := internalKeyAt p delKeyIndex
           let res := internalMoveAllTo sib nn middleKey
           let t := pset (pset t sibId (BNode.internalN res.1)) nid (BNode.internalN res.2.1)
           let t := adoptChildren t res.2.2 (Int.ofNat nid)
           let t := pdel t sibId
           let p' := internalRemove p delKeyIndex
           let t := pset t parentId (BNode.internalN p')
           if p'.size < internalMinSize p'.maxSize then cont t parentId else t
         | none => t
       else
         match internalValueIndex p nid with
         | some delKeyIndex =>
           let middleKey := internalKeyAt p delKeyIndex
           let res := internalMoveAllTo nn sib middleKey
           let t := pset (pset t nid (BNode.internalN res.1)) sibId (BNode.internalN res.2.1)
           let t := adoptChildren t res.2.2 (Int.ofNat sibId)
           let t := pdel t nid
           let p' := internalRemove p delKeyIndex
           let t := pset t parentId (BNode.internalN p')
           if p'.size < internalMinSize p'.maxSize then cont t parentId else t
         | none => t
     | _ => t)
  | _, _ => t

/-- `BPlusTree::CoalesceOrRedistribute` with fuel over the tree height:
adjust the root, else find a sibling and either redistribute (when the
two sizes together exceed the max) or coalesce. -/
def coalesceOrRedistribute (t : BTree) : Nat → Nat → BTree
  | _, 0 => t
  | nid, fuel + 1 =>
    match pget t nid with
    | none => t
    | some node =>
      if nodeParent node < 0 then adjustRoot t nid
      else
        match getSiblingNode t nid with
        | none => t
        | some (sibId, index) =>
          let maxSz := match node with
            | BNode.leafN _ => t.leafMax
            | BNode.internalN _ => t.internalMax
          match pget t sibId with
          | none => t
          | some sib =>
            if maxSz < nodeSize node + nodeSize sib then
              redistribute t sibId nid index
            else
              coalesce t sibId nid index (fun t' pid => coalesceOrRedistribute t' pid fuel)

/-- `BPlusTree::Remove`: locate the leaf, remove the key, and run
coalesce-or-redistribute when the leaf underflows. -/
def treeRemove (t : BTree) (key : Nat) : BTree :=
  if t.root < 0 then t
  else
    match findLeafId t key with
    | none => t
    | some lid =>
      match pget t lid with
      | some (BNode.leafN l) =>
        let l' := leafRemove l key
        let t := pset t lid (BNode.leafN l')
        if l'.size < leafMinSize l'.maxSize then
          coalesceOrRedistribute t lid (t.pages.length + 1)
        else t
      | _ => t

/-- Tree scenarios for the duplicate-probe analysis: `leaf_max = 4`,
`internal_max = 4`, keys inserted in descending order 4, 3, 2, 1 (the
insert of 1 fills the leaf to `max` and splits it), then keys 2 and 4
removed (the first removal coalesces the two leaves back into a single
root leaf holding 1, 3, 4 with a stale copy of key 4 in slot 3; the
second leaves entries 1, 3 with a stale 4 in slot 2). -/
def btEmpty : BTree := { leafMax := 4, internalMax := 4 }

def btA : BTree := (treeInsert btEmpty 4 40).2

def btB : BTree := (treeInsert btA 3 30).2

def btC : BTree := (treeInsert btB 2 20).2

def btD : BTree := (treeInsert btC 1 10).2

def btE : BTree := treeRemove btD 2

def btF : BTree := treeRemove btE 4

end Bustub
namespace Bustub

/-- Concrete full leaf for the split witness. -/
def leafScene : LeafPage :=
  { size := 4, slots := [(1, 10), (2, 20), (3, 30), (4, 40)], next := -1,
    parent := -1, maxSize := 4 }

end Bustub

/-! ## Helper lemmas about the association-list and heap primitives -/

namespace Bustub

theorem mem_of_alookup {α : Type} {k : Nat} {v : α} :
    ∀ {m : List (Nat × α)}, alookup k m = some v → (k, v) ∈ m := by
  intro m
  induction m with
  | nil => intro h; simp [alookup] at h
  | cons p ps ih =>
    intro h
    obtain ⟨k1, v1⟩ := p
    rw [alookup] at h
    by_cases hk : k1 = k
    · subst hk
      rw [if_pos rfl] at h
      injection h with h
      subst h
      exact List.mem_cons_self _ _
    · rw [if_neg hk] at h
      exact List.mem_cons_of_mem _ (ih h)

theorem alookup_of_mem_nodup {α : Type} {k : Nat} {v : α} :
    ∀ {m : List (Nat × α)}, (k, v) ∈ m → (m.map Prod.fst).Nodup →
      alookup k m = some v := by
  intro m
  induction m with
  | nil => intro h; simp at h
  | cons p ps ih =>
    intro h hnd
    rcases List.mem_cons.1 h with h1 | h1
    · rw [← h1, alookup, if_pos rfl]
    · rw [alookup]
      have hk : p.1 ≠ k := by
        intro hk
        have : k ∈ ps.map Prod.fst := List.mem_map_of_mem Prod.fst h1
        rw [List.map_cons, List.nodup_cons, hk] at hnd
        exact hnd.1 this
      rw [if_neg hk]
      exact ih h1 (by rw [List.map_cons, List.nodup_cons] at hnd; exact hnd.2)

theorem pairLe_refl (a : Nat × Nat) : pairLe a a = true := by
  simp [pairLe]

theorem pairLe_trans {a b c : Nat × Nat} (h1 : pairLe a b = true)
    (h2 : pairLe b c = true) : pairLe a c = true := by
  simp only [pairLe, Bool.or_eq_true, Bool.and_eq_true, decide_eq_true_eq] at *
  omega

theorem pairLe_total (a b : Nat × Nat) :
    pairLe a b = true ∨ pairLe b a = true := by
  simp only [pairLe, Bool.or_eq_true, Bool.and_eq_true, decide_eq_true_eq]
  omega

theorem qMin_eq_none : ∀ {q : List (Nat × Nat)}, qMin q = none → q = [] := by
  intro q h
  cases q with
  | nil => rfl
  | cons x xs =>
    rw [qMin] at h
    cases hx : qMin xs <;> rw [hx] at h <;> cases h

theorem qMin_mem : ∀ {q : List (Nat × Nat)} {p : Nat × Nat},
    qMin q = some p → p ∈ q := by
  intro q
  induction q with
  | nil => intro p h; simp [qMin] at h
  | cons x xs ih =>
    intro p h
    rw [qMin] at h
    cases hx : qMin xs with
    | none =>
      rw [hx] at h
      injection h with h
      subst h
      exact List.mem_cons_self _ _
    | some r =>
      rw [hx] at h
      injection h with h
      subst h
      by_cases hle : pairLe x r = true
      · rw [if_pos hle]; exact List.mem_cons_self _ _
      · rw [if_neg hle]; exact List.mem_cons_of_mem _ (ih hx)

theorem qMin_le : ∀ {q : List (Nat × Nat)} {p : Nat × Nat},
    qMin q = some p → ∀ x ∈ q, pairLe p x = true := by
  intro q
  induction q with
  | nil => intro p h; simp [qMin] at h
  | cons y ys ih =>
    intro p h x hx
    rw [qMin] at h
    cases hy : qMin ys with
    | none =>
      rw [hy] at h
      injection h with h
      subst h
      have hnil := qMin_eq_none hy
      subst hnil
      rcases List.mem_cons.1 hx with h1 | h1
      · subst h1; exact pairLe_refl _
      · simp at h1
    | some r =>
      rw [hy] at h
      injection h with h
      subst h
      rcases List.mem_cons.1 hx with h1 | h1
      · subst h1
        by_cases hle : pairLe x r = true
        · rw [if_pos hle]; exact pairLe_refl _
        · rw [if_neg hle]
          rcases pairLe_total x r with ht | ht
          · exact absurd ht hle
          · exact ht
      · by_cases hle : pairLe y r = true
        · rw [if_pos hle]
          exact pairLe_trans hle (ih hy x h1)
        · rw [if_neg hle]
          exact ih hy x h1

theorem alookup_aerase_self {α : Type} (k : Nat) :
    ∀ (m : List (Nat × α)), alookup k (aerase k m) = none := by
  intro m
  induction m with
  | nil => simp [aerase, alookup]
  | cons p ps ih =>
    rw [aerase]
    by_cases hk : p.1 = k
    · rw [if_pos hk]; exact ih
    · rw [if_neg hk, alookup, if_neg hk]; exact ih

end Bustub
namespace Bustub

theorem victimLoop_spec :
    ∀ (fuel : Nat) (m q : List (Nat × Nat)),
      q.length ≤ fuel →
      (∀ p ∈ m, (p.2, p.1) ∈ q) →
      (∀ p ∈ q, 0 < p.1) →
      ((m.map Prod.fst).Nodup) →
      m ≠ [] →
      ∃ f ts, (f, ts) ∈ m ∧ (∀ p ∈ m, ts ≤ p.2) ∧
        (victimLoop m fuel q).1 = some f ∧
        (victimLoop m fuel q).2.1 = aerase f m := by
  intro fuel
  induction fuel with
  | zero =>
    intro m q hfuel hmq hqpos hnd hne
    obtain ⟨p, hp⟩ := List.exists_mem_of_ne_nil m hne
    have := hmq p hp
    rw [List.length_eq_zero.1 (Nat.le_zero.1 hfuel)] at this
    simp at this
  | succ fuel ih =>
    intro m q hfuel hmq hqpos hnd hne
    cases hq : qPopMin q with
    | none =>
      rw [qPopMin] at hq
      cases hqm : qMin q with
      | some p => rw [hqm] at hq; cases hq
      | none =>
        have hqnil := qMin_eq_none hqm
        subst hqnil
        obtain ⟨p, hp⟩ := List.exists_mem_of_ne_nil m hne
        have := hmq p hp
        simp at this
    | some pr =>
      obtain ⟨⟨ts0, f0⟩, q'⟩ := pr
      have hpair : qMin q = some (ts0, f0) ∧ q' = q.erase (ts0, f0) := by
        rw [qPopMin] at hq
        cases hqm0 : qMin q with
        | none => rw [hqm0] at hq; cases hq
        | some p =>
          rw [hqm0] at hq
          injection hq with hq1
          have e1 : p = (ts0, f0) := congrArg Prod.fst hq1
          have e2 : q.erase p = q' := congrArg Prod.snd hq1
          subst e1
          exact ⟨rfl, e2.symm⟩
      obtain ⟨hqm, hq'⟩ := hpair
      have hmem0 : (ts0, f0) ∈ q := qMin_mem hqm
      by_cases hvalid : mGet m f0 = ts0
      · have hstep : victimLoop m (fuel + 1) q = (some f0, aerase f0 m, q') := by
          simp only [victimLoop, hq]
          rw [if_pos hvalid]
        refine ⟨f0, ts0, ?_, ?_, ?_, ?_⟩
        · have hpos : 0 < ts0 := hqpos _ hmem0
          have : alookup f0 m = some ts0 := by
            unfold mGet at hvalid
            cases hl : alookup f0 m with
            | none => rw [hl] at hvalid; simp at hvalid; omega
            | some t => rw [hl] at hvalid; simp at hvalid; rw [hvalid]
          exact mem_of_alookup this
        · intro p hp
          have hle := qMin_le hqm (p.2, p.1) (hmq p hp)
          simp only [pairLe, Bool.or_eq_true, Bool.and_eq_true, decide_eq_true_eq] at hle
          omega
        · rw [hstep]
        · rw [hstep]
      · have hstep : victimLoop m (fuel + 1) q = victimLoop m fuel q' := by
          simp only [victimLoop, hq]
          rw [if_neg hvalid]
        rw [hstep]
        refine ih m q' ?_ ?_ ?_ hnd hne
        · rw [hq', List.length_erase_of_mem hmem0]
          omega
        · intro p hp
          have hin := hmq p hp
          have hne2 : (p.2, p.1) ≠ (ts0, f0) := by
            intro heq
            have h2 : p = (f0, ts0) := by
              cases p
              injection heq with e1 e2
              simp_all
            apply hvalid
            rw [h2] at hp
            unfold mGet
            rw [alookup_of_mem_nodup hp hnd]
            rfl
          rw [hq']
          exact (List.mem_erase_of_ne hne2).2 hin
        · intro p hp
          rw [hq'] at hp
          exact hqpos p (List.mem_of_mem_erase hp)

theorem lruVictim_none_iff {s : LRUReplacer} (hwf : lruWF s) :
    (lruVictim s).1 = none ↔ s.sz = 0 := by
  obtain ⟨hsz, hnd, hmq, hqb, hmb, hcap⟩ := hwf
  constructor
  · intro h
    by_contra hne
    have hmne : s.m ≠ [] := by
      intro hnil
      rw [hnil] at hsz
      simp at hsz
      exact hne hsz
    obtain ⟨f, ts, _, _, h1, _⟩ :=
      victimLoop_spec s.q.length s.m s.q (le_refl _) hmq
        (fun p hp => (hqb p hp).1) hnd hmne
    rw [lruVictim, if_neg hne] at h
    rcases hres : victimLoop s.m s.q.length s.q with ⟨a, m', q'⟩
    rw [hres] at h h1
    cases a with
    | none => cases h1
    | some v => simp at h
  · intro h
    rw [lruVictim, if_pos h]

theorem lruVictim_success {s : LRUReplacer} (hwf : lruWF s) (hne : s.sz ≠ 0) :
    ∃ f ts, (f, ts) ∈ s.m ∧ (∀ p ∈ s.m, ts ≤ p.2) ∧
      (lruVictim s).1 = some f ∧
      (lruVictim s).2.m = aerase f s.m ∧
      (lruVictim s).2.sz = s.sz - 1 ∧
      (lruVictim s).2.maxSize = s.maxSize ∧
      (lruVictim s).2.tsCnt = s.tsCnt := by
  obtain ⟨hsz, hnd, hmq, hqb, hmb, hcap⟩ := hwf
  have hmne : s.m ≠ [] := by
    intro hnil
    rw [hnil] at hsz
    simp at hsz
    exact hne hsz
  obtain ⟨f, ts, hmem, hmin, h1, h2⟩ :=
    victimLoop_spec s.q.length s.m s.q (le_refl _) hmq
      (fun p hp => (hqb p hp).1) hnd hmne
  refine ⟨f, ts, hmem, hmin, ?_⟩
  rcases hres : victimLoop s.m s.q.length s.q with ⟨a, m', q'⟩
  rw [hres] at h1 h2
  cases a with
  | none => cases h1
  | some v =>
    injection h1 with h1
    subst h1
    simp only at h2
    subst h2
    rw [lruVictim, if_neg hne, hres]
    simp

end Bustub
/-! ## Further list helpers for the buffer pool proofs -/

namespace Bustub

theorem getD_set_self {α : Type} :
    ∀ (l : List α) (i : Nat) (a d : α), i < l.length →
      (l.set i a).getD i d = a := by
  intro l
  induction l with
  | nil => intro i a d h; simp at h
  | cons x xs ih =>
    intro i a d h
    cases i with
    | zero => rfl
    | succ n =>
      show (xs.set n a).getD n d = a
      exact ih n a d (by simpa using h)

theorem ptErase_find_none (t : List (Int × Nat)) (pid : Int) :
    (ptErase pid t).find? (fun p => p.1 = pid) = none := by
  rw [List.find?_eq_none]
  intro x hx
  have hmem := List.of_mem_filter (show x ∈ t.filter (fun p => p.1 ≠ pid) from hx)
  simp at hmem ⊢
  exact hmem

theorem diskRead_diskWrite_self (d : Disk) (pid : Int) (b : Nat) :
    diskRead (diskWrite d pid b) pid = b := by
  have h : (diskWrite d pid b).contents = (pid, b) :: d.contents.filter (fun p => p.1 ≠ pid) := rfl
  rw [diskRead, h, List.find?_cons_of_pos _ (by simp)]
  rfl

end Bustub
/-! ## Claim theorems: LRU replacer and buffer pool -/

namespace Bustub

/-- Claim C5, counterexample.  The claim says that when the eligible set
is full an additional `unpin` of a new frame is dropped, leaving the
eligible set unchanged.  On a replacer of capacity 1, after `Unpin(1)`
the set is full and holds frame 1; the C++ `Unpin(2)` then evicts frame
1 and inserts frame 2, so the set does change. -/
theorem claim5_unpin_full_counterexample :
    mGet lruScene1.m 1 ≠ 0 ∧ lruScene1.sz = lruScene1.maxSize ∧
    mGet lruScene2.m 1 = 0 ∧ mGet lruScene2.m 2 ≠ 0 := by decide

/-- Claim C5 as amended: `unpin(f)` is a no-op when `f` is already
eligible; when there is room it appends `f` at the most-recent end (a
timestamp strictly larger, under the representation invariant, than
every other eligible frame's); and when the eligible set is full it does
NOT drop the call: it first evicts the least-recently unpinned frame via
`Victim` and then adds `f`. -/
theorem claim5_unpin_amended :
    ∀ (s : LRUReplacer) (f : Nat),
      (mGet s.m f ≠ 0 → lruUnpin s f = s) ∧
      (mGet s.m f = 0 → s.sz < s.maxSize →
        lruUnpin s f =
          { s with
            m := s.m ++ [(f, s.tsCnt)],
            q := s.q ++ [(s.tsCnt, f)],
            sz := s.sz + 1,
            tsCnt := s.tsCnt + 1 }) ∧
      (lruWF s → ∀ p ∈ s.m, p.2 < s.tsCnt) ∧
      (lruWF s → mGet s.m f = 0 → s.sz = s.maxSize → 1 ≤ s.maxSize →
        (∃ v ts, (v, ts) ∈ s.m ∧ (∀ p ∈ s.m, ts ≤ p.2) ∧ (lruVictim s).1 = some v) ∧
        lruUnpin s f =
          { (lruVictim s).2 with
            m := (lruVictim s).2.m ++ [(f, (lruVictim s).2.tsCnt)],
            q := (lruVictim s).2.q ++ [((lruVictim s).2.tsCnt, f)],
            sz := (lruVictim s).2.sz + 1,
            tsCnt := (lruVictim s).2.tsCnt + 1 }) := by
  intro s f
  refine ⟨?_, ?_, ?_, ?_⟩
  · intro h
    rw [lruUnpin, if_pos h]
  · intro h hroom
    rw [lruUnpin, if_neg (by simp [h])]
    have hstop : evictUntilRoom (s.sz + 1) s = s := by
      rw [evictUntilRoom, if_neg (by omega)]
    rw [hstop]
  · intro hwf p hp
    exact (hwf.2.2.2.2.1 p hp).2
  · intro hwf h hfull hmax
    have hne : s.sz ≠ 0 := by omega
    obtain ⟨v, ts, hmem, hmin, hv1, hvm, hvsz, hvmax, hvts⟩ := lruVictim_success hwf hne
    refine ⟨⟨v, ts, hmem, hmin, hv1⟩, ?_⟩
    rw [lruUnpin, if_neg (by simpa using h)]
    have hstep1 : evictUntilRoom (s.sz + 1) s = evictUntilRoom s.sz (lruVictim s).2 := by
      rw [evictUntilRoom, if_pos (by omega)]
    have hstep2 : evictUntilRoom s.sz (lruVictim s).2 = (lruVictim s).2 := by
      obtain ⟨k, hk⟩ : ∃ k, s.sz = k + 1 := ⟨s.sz - 1, by omega⟩
      rw [hk, evictUntilRoom, if_neg (by rw [hvsz, hvmax]; omega)]
    rw [hstep1, hstep2]

/-- Claim C5 amended, witness: on a full replacer of capacity 1 holding
frame 1, `Unpin(2)` evicts frame 1 and installs frame 2. -/
theorem claim5_unpin_amended_witness :
    (lruWF lruScene1 ∧ mGet lruScene1.m 2 = 0 ∧ lruScene1.sz = lruScene1.maxSize ∧
      1 ≤ lruScene1.maxSize) ∧
    ((∃ v ts, (v, ts) ∈ lruScene1.m ∧ (∀ p ∈ lruScene1.m, ts ≤ p.2) ∧
        (lruVictim lruScene1).1 = some v) ∧
      lruUnpin lruScene1 2 =
        { (lruVictim lruScene1).2 with
          m := (lruVictim lruScene1).2.m ++ [(2, (lruVictim lruScene1).2.tsCnt)],
          q := (lruVictim lruScene1).2.q ++ [((lruVictim lruScene1).2.tsCnt, 2)],
          sz := (lruVictim lruScene1).2.sz + 1,
          tsCnt := (lruVictim lruScene1).2.tsCnt + 1 }) :=
  ⟨⟨by decide, by decide, by decide, by decide⟩,
   (claim5_unpin_amended lruScene1 2).2.2.2 (by decide) (by decide) (by decide) (by decide)⟩

/-- Claim C6, counterexample.  The claim's concrete consequence says that
with pool size 3 fetching pages 1, 2, 3, then 4 evicts page 1.  In the
code a fetched page stays pinned, so after plain fetches of 1, 2, 3 the
free list and the replacer are both empty: fetching 4 returns the null
"no frame" result and page 1 is still resident in frame 0. -/
theorem claim6_fetch_counterexample :
    (bpmFetch bpmScene3 4).1 = none ∧
    ptLookup (bpmFetch bpmScene3 4).2 1 = some 0 := by decide

/-- Claim C6 as amended: `Victim` fails exactly when the eligible set is
empty and otherwise removes and returns the least-recently unpinned
eligible frame; and the concrete pool-of-3 scenario evicts page 1 only
when each fetched page is unpinned before page 4 is fetched. -/
theorem claim6_victim_amended :
    (∀ s : LRUReplacer, lruWF s →
      (((lruVictim s).1 = none ↔ s.sz = 0) ∧
       (s.sz ≠ 0 → ∃ f ts, (f, ts) ∈ s.m ∧ (∀ p ∈ s.m, ts ≤ p.2) ∧
          (lruVictim s).1 = some f ∧ (lruVictim s).2.m = aerase f s.m ∧
          (lruVictim s).2.sz = s.sz - 1))) ∧
    ((bpmFetch bpmScene3u 4).1 = some 0 ∧
     ptLookup (bpmFetch bpmScene3u 4).2 1 = none ∧
     ptLookup (bpmFetch bpmScene3u 4).2 4 = some 0) := by
  constructor
  · intro s hwf
    refine ⟨lruVictim_none_iff hwf, fun hne => ?_⟩
    obtain ⟨f, ts, hmem, hmin, h1, h2, h3, _, _⟩ := lruVictim_success hwf hne
    exact ⟨f, ts, hmem, hmin, h1, h2, h3⟩
  · refine ⟨by decide, by decide, by decide⟩

/-- Claim C6 amended, witness: a replacer holding frames 0 and 1 (frame 0
unpinned first) evicts frame 0. -/
theorem claim6_victim_amended_witness :
    lruWF (lruUnpin (lruUnpin (lruInit 2) 0) 1) ∧
    (((lruVictim (lruUnpin (lruUnpin (lruInit 2) 0) 1)).1 = none ↔
        (lruUnpin (lruUnpin (lruInit 2) 0) 1).sz = 0)) :=
  ⟨by decide, (claim6_victim_amended.1 (lruUnpin (lruUnpin (lruInit 2) 0) 1) (by decide)).1⟩

end Bustub
namespace Bustub

/-- Claim C7: for a resident page with positive pin count,
`unpin(page_id, dirty=true)` sets the frame's dirty flag,
`unpin(page_id, dirty=false)` never clears an already-set dirty flag,
and in general the new dirty flag is the old flag or-ed with the
argument, so it is otherwise unchanged. -/
theorem claim7_unpin_dirty :
    ∀ (s : BPM) (pid : Int) (fid : Nat),
      ptLookup s pid = some fid →
      fid < s.pages.length →
      0 < (frameAt s fid).pinCount →
      (frameAt (bpmUnpin s pid true).2 fid).dirty = true ∧
      (frameAt (bpmUnpin s pid false).2 fid).dirty = (frameAt s fid).dirty ∧
      ∀ b : Bool, (frameAt (bpmUnpin s pid b).2 fid).dirty = ((frameAt s fid).dirty || b) := by
  intro s pid fid hpt hlen hpin
  have hne : ¬(frameAt s fid).pinCount = 0 := by omega
  have hrun : ∀ b : Bool, (bpmUnpin s pid b).2.pages =
      s.pages.set fid
        { frameAt s fid with
          dirty := if (frameAt s fid).dirty then (frameAt s fid).dirty else b,
          pinCount := (frameAt s fid).pinCount - 1 } := by
    intro b
    simp only [bpmUnpin, hpt]
    rw [if_neg hne]
    by_cases hz : (frameAt s fid).pinCount - 1 = 0 <;> simp [hz, setFrame]
  have hget : ∀ b : Bool, frameAt (bpmUnpin s pid b).2 fid =
      { frameAt s fid with
        dirty := if (frameAt s fid).dirty then (frameAt s fid).dirty else b,
        pinCount := (frameAt s fid).pinCount - 1 } := by
    intro b
    rw [frameAt, hrun b, getD_set_self _ _ _ _ hlen]
  refine ⟨?_, ?_, ?_⟩
  · rw [hget true]
    by_cases hd : (frameAt s fid).dirty <;> simp [hd]
  · rw [hget false]
    by_cases hd : (frameAt s fid).dirty <;> simp [hd]
  · intro b
    rw [hget b]
    by_cases hd : (frameAt s fid).dirty <;> simp [hd]

/-- Claim C7, witness: a pool of one frame holding page 5 with pin count
1; unpinning with `dirty=true` marks the frame dirty. -/
theorem claim7_unpin_dirty_witness :
    (ptLookup bpmScene5 5 = some 0 ∧ 0 < bpmScene5.pages.length ∧
      0 < (frameAt bpmScene5 0).pinCount) ∧
    (frameAt (bpmUnpin bpmScene5 5 true).2 0).dirty = true :=
  ⟨⟨by decide, by decide, by decide⟩,
   (claim7_unpin_dirty bpmScene5 5 0 (by decide) (by decide) (by decide)).1⟩

/-- Claim C8: `delete_page(page_id)` returns true without state change on
a non-resident page; returns false without state change when the pin
count is positive; and on success for a resident dirty page it writes
the frame's bytes to disk, removes the mapping, resets the frame,
returns the frame to the free list and deallocates the page on disk. -/
theorem claim8_delete_page :
    ∀ (s : BPM) (pid : Int),
      (ptLookup s pid = none → bpmDelete s pid = (true, s)) ∧
      (∀ fid, ptLookup s pid = some fid → 0 < (frameAt s fid).pinCount →
        bpmDelete s pid = (false, s)) ∧
      (∀ fid, ptLookup s pid = some fid → (frameAt s fid).pinCount = 0 →
        (frameAt s fid).dirty = true → (frameAt s fid).pageId = pid →
        (bpmDelete s pid).1 = true ∧
        diskRead (bpmDelete s pid).2.disk pid = (frameAt s fid).data ∧
        ptLookup (bpmDelete s pid).2 pid = none ∧
        fid ∈ (bpmDelete s pid).2.freeList ∧
        pid ∈ (bpmDelete s pid).2.disk.deallocated ∧
        (fid < s.pages.length → frameAt (bpmDelete s pid).2 fid = frameInit)) := by
  intro s pid
  refine ⟨?_, ?_, ?_⟩
  · intro h
    simp only [bpmDelete, h]
  · intro fid hpt hpin
    simp only [bpmDelete, hpt]
    rw [if_pos hpin]
  · intro fid hpt hpin hdirty hpg
    have hnp : ¬ 0 < (frameAt s fid).pinCount := by omega
    have hrun : bpmDelete s pid =
        (true,
          { pageTable := ptErase pid s.pageTable
            pages := s.pages.set fid frameInit
            freeList := s.freeList ++ [fid]
            repl := lruPin s.repl fid
            disk := { (diskWrite s.disk (frameAt s fid).pageId (frameAt s fid).data) with
                      deallocated := (diskWrite s.disk (frameAt s fid).pageId (frameAt s fid).data).deallocated ++ [pid] }
            nextPageId := s.nextPageId
            numInstances := s.numInstances }) := by
      simp only [bpmDelete, hpt]
      rw [if_neg hnp, if_pos hdirty]
      simp [setFrame]
    refine ⟨?_, ?_, ?_, ?_, ?_, ?_⟩
    · rw [hrun]
    · rw [hrun]
      simp only
      rw [hpg] at *
      exact diskRead_diskWrite_self _ _ _
    · rw [hrun]
      show ((ptErase pid s.pageTable).find? (fun p => p.1 = pid)).map Prod.snd = none
      rw [ptErase_find_none]
      rfl
    · rw [hrun]
      simp
    · rw [hrun]
      simp [diskWrite]
    · intro hlen
      rw [hrun, frameAt]
      simp only
      exact getD_set_self _ _ _ _ hlen

/-- Claim C8, witness: page 5 resident in frame 0, unpinned and dirty;
deleting it succeeds, flushes byte content 0 to disk, frees frame 0 and
deallocates page 5. -/
theorem claim8_delete_page_witness :
    (ptLookup bpmScene5d 5 = some 0 ∧ (frameAt bpmScene5d 0).pinCount = 0 ∧
      (frameAt bpmScene5d 0).dirty = true ∧ (frameAt bpmScene5d 0).pageId = 5) ∧
    ((bpmDelete bpmScene5d 5).1 = true ∧
      diskRead (bpmDelete bpmScene5d 5).2.disk 5 = (frameAt bpmScene5d 0).data ∧
      ptLookup (bpmDelete bpmScene5d 5).2 5 = none ∧
      0 ∈ (bpmDelete bpmScene5d 5).2.freeList ∧
      5 ∈ (bpmDelete bpmScene5d 5).2.disk.deallocated ∧
      (0 < bpmScene5d.pages.length → frameAt (bpmDelete bpmScene5d 5).2 0 = frameInit)) :=
  ⟨⟨by decide, by decide, by decide, by decide⟩,
   (claim8_delete_page bpmScene5d 5).2.2 0 (by decide) (by decide) (by decide) (by decide)⟩

end Bustub
/-! ## Claim theorems: lock manager and deadlock detection -/

namespace Bustub

/-- Helper for the FIFO analysis: `GrantLockRequestQueue_` only ever
grants a PREFIX of the request queue — it marks the first `n` requests
granted and leaves the rest untouched, for some `n`, because the scan
breaks at the first non-grantable request. -/
theorem grantScan_front_run :
    ∀ (q : List LockRequest) (rid : Nat) (up : Bool) (hs : List Nat)
      (lm : List (Nat × LockMode)) (g : Bool),
      ∃ n, n ≤ q.length ∧
        (grantScan rid up hs q lm g).1 =
          (q.take n).map (fun r => { r with granted := true }) ++ q.drop n := by
  intro q
  induction q with
  | nil =>
    intro rid up hs lm g
    exact ⟨0, by simp, rfl⟩
  | cons req rest ih =>
    intro rid up hs lm g
    by_cases hm : req.mode = LockMode.shared
    · rcases hpr : agetOrInsert rid LockMode.shared lm with ⟨mo, lm2⟩
      by_cases hx : mo ≠ LockMode.exclusive
      · rcases hrec : grantScan rid up hs rest (aset rid LockMode.shared lm2) true
          with ⟨r1, r23⟩
        obtain ⟨n, hn, hres⟩ := ih rid up hs (aset rid LockMode.shared lm2) true
        rw [hrec] at hres
        simp only at hres
        refine ⟨n + 1, by simp; omega, ?_⟩
        simp only [grantScan, hm, if_pos rfl, hpr, hrec]
        rw [if_pos hx]
        simp [hm, hres]
      · refine ⟨0, by simp, ?_⟩
        simp only [grantScan, hm, if_pos rfl, hpr]
        rw [if_neg hx]
        simp
    · by_cases h2 : (alookup rid lm).isNone
      · refine ⟨1, by simp, ?_⟩
        simp only [grantScan]
        rw [if_neg hm, if_pos h2]
        simp
      · by_cases h3 : up ∧ alookup rid lm = some LockMode.shared ∧ hs = [req.tid]
        · refine ⟨1, by simp, ?_⟩
          simp only [grantScan]
          rw [if_neg hm, if_neg h2, if_pos h3]
          simp
        · refine ⟨0, by simp, ?_⟩
          simp only [grantScan]
          rw [if_neg hm, if_neg h2, if_neg h3]
          simp

/-- Claim C1, counterexample.  The claim says a later-queued request is
never granted while an earlier incompatible request waits, and in
particular that a shared request arriving while an exclusive request is
queued blocks behind it.  In the code, with T1 holding S on record 100
and T2's X request queued and ungranted, T3's `LockShared` consults only
`lock_map_[rid]` (SHARED), so it is granted immediately: it returns
true, T3 joins the holder set, and T2's request is still queued and
ungranted. -/
theorem claim1_fifo_counterexample :
    (lockShared lmScene0 1 100).1 = LockRes.ret true ∧
    (lockExclusive lmScene1 2 100).1 = LockRes.blocked ∧
    ((alookup 100 lmScene2.lockTable).getD {}).queue =
      [{ tid := 2, mode := LockMode.exclusive, granted := false }] ∧
    (lockShared lmScene2 3 100).1 = LockRes.ret true ∧
    lmGranted lmScene3 2 100 = false ∧
    holderGet lmScene3 100 = [1, 3] := by decide

/-- Claim C1 as amended: grants to QUEUED requests do follow FIFO — the
grant scan run on unlock marks a prefix of the queue granted and stops
at the first non-grantable request (`grantScan_front_run`) — but an
arriving shared request is granted immediately whenever no exclusive
lock is currently held, bypassing any queued exclusive request.  In the
S/X/S scenario: T3 is granted at once; T2 stays ungranted after T1's
unlock, is granted by T3's unlock, and then resumes holding X. -/
theorem claim1_fifo_amended :
    (∀ (q : List LockRequest) (rid : Nat) (up : Bool) (hs : List Nat)
       (lm : List (Nat × LockMode)) (g : Bool),
       ∃ n, n ≤ q.length ∧
         (grantScan rid up hs q lm g).1 =
           (q.take n).map (fun r => { r with granted := true }) ++ q.drop n) ∧
    (lockShared lmScene2 3 100).1 = LockRes.ret true ∧
    lmGranted lmScene4 2 100 = false ∧
    lmGranted lmScene5 2 100 = true ∧
    (resumeLockExclusive lmScene5 2 100).1 = LockRes.ret true ∧
    alookup 100 lmScene6.lockMap = some LockMode.exclusive ∧
    holderGet lmScene6 100 = [2] := by
  refine ⟨grantScan_front_run, ?_, ?_, ?_, ?_, ?_, ?_⟩ <;> decide

/-- Claim C4, evaluation at the failing wait-for graph 1→9, 9→2, 2⇄3.
`HasCycle` selects 9 as victim although the only cycle is {2, 3}: the
victim is the maximum of the whole DFS path, which here contains the
non-cycle nodes 1 and 9 leading into the cycle.  Every node actually on
a cycle is ≤ 3. -/
theorem claim4_victim_eval :
    hasCycle 20 waitsForG4 = some (some 9) ∧
    onCycleB waitsForG4 9 = false ∧
    onCycleB waitsForG4 2 = true ∧
    onCycleB waitsForG4 3 = true ∧
    (waitsForG4.map (fun p => p.1)).all
      (fun n => !(onCycleB waitsForG4 n) || decide (n ≤ 3)) = true := by decide

/-- Claim C9, counterexample.  The claim says unlocking a record the
transaction does not hold is reported as a failed (false) result.  The
code logs and returns TRUE, leaving the lock structures unchanged (only
the 2PL GROWING→SHRINKING transition fires first). -/
theorem claim9_unlock_counterexample :
    (lmUnlock lmScene9 7 100).1 = true ∧
    (lmUnlock lmScene9 7 100).2.lockTable = lmScene9.lockTable ∧
    (lmUnlock lmScene9 7 100).2.lockMap = lmScene9.lockMap ∧
    (lmUnlock lmScene9 7 100).2.lockHolder = lmScene9.lockHolder ∧
    (txnGet (lmUnlock lmScene9 7 100).2 7).state = TxnState.shrinking := by decide

/-- Claim C9 as amended: `Unlock` on a record the transaction does not
hold returns TRUE — a logged no-op success, not a failure — and leaves
the lock table, lock map and holder map unchanged (the REPEATABLE_READ
GROWING→SHRINKING transition still fires before the check). -/
theorem claim9_unlock_amended :
    ∀ (s : LMState) (tid rid : Nat),
      tid ∉ holderGet s rid →
      (lmUnlock s tid rid).1 = true ∧
      (lmUnlock s tid rid).2.lockTable = s.lockTable ∧
      (lmUnlock s tid rid).2.lockMap = s.lockMap ∧
      (lmUnlock s tid rid).2.lockHolder = s.lockHolder := by
  intro s tid rid h
  by_cases hc : (txnGet s tid).iso = IsoLevel.repeatableRead ∧
      (txnGet s tid).state = TxnState.growing
  · simp only [lmUnlock]
    rw [if_pos hc]
    generalize hs1 : txnSet s tid { txnGet s tid with state := TxnState.shrinking } = s1
    have e2 : holderGet s1 rid = holderGet s rid := by rw [← hs1]; rfl
    rw [e2, if_pos (Or.inr h)]
    refine ⟨rfl, ?_, ?_, ?_⟩ <;> rw [← hs1] <;> rfl
  · simp only [lmUnlock]
    rw [if_neg hc, if_pos (Or.inr h)]
    exact ⟨rfl, rfl, rfl, rfl⟩

/-- Claim C9 amended, witness: transaction 7 holds nothing; unlocking
record 100 returns true and the lock table stays unchanged. -/
theorem claim9_unlock_amended_witness :
    (7 ∉ holderGet lmScene9 100) ∧
    ((lmUnlock lmScene9 7 100).1 = true ∧
     (lmUnlock lmScene9 7 100).2.lockTable = lmScene9.lockTable ∧
     (lmUnlock lmScene9 7 100).2.lockMap = lmScene9.lockMap ∧
     (lmUnlock lmScene9 7 100).2.lockHolder = lmScene9.lockHolder) :=
  ⟨by decide, claim9_unlock_amended lmScene9 7 100 (by decide)⟩

/-- Claim C10, counterexample.  The claim says any GROWING transaction
already holding a lock gets `true` immediately from a re-request.  A
READ_UNCOMMITTED transaction holding X that calls `LockShared` is
instead aborted with `LOCKSHARED_ON_READ_UNCOMMITTED`, because the
isolation-level check precedes the already-holds fast path. -/
theorem claim10_relock_counterexample :
    (txnGet lmScene10 4).state = TxnState.growing ∧
    100 ∈ (txnGet lmScene10 4).exclSet ∧
    (lockShared lmScene10 4 100).1 =
      LockRes.thrown AbortReason.lockSharedOnReadUncommitted ∧
    (txnGet (lockShared lmScene10 4 100).2 4).state = TxnState.aborted := by decide

/-- Claim C10 as amended: a GROWING transaction re-requesting a lock it
holds returns true immediately with the whole state unchanged — for
`LockShared` when it holds S or X and its isolation level is not
READ_UNCOMMITTED (which aborts first), and for `LockExclusive` when it
holds X and not S (holding S trips the upgrade assertion). -/
theorem claim10_relock_amended :
    ∀ (s : LMState) (tid rid : Nat),
      ((txnGet s tid).state = TxnState.growing →
       (txnGet s tid).iso ≠ IsoLevel.readUncommitted →
       (rid ∈ (txnGet s tid).sharedSet ∨ rid ∈ (txnGet s tid).exclSet) →
       lockShared s tid rid = (LockRes.ret true, s)) ∧
      ((txnGet s tid).state = TxnState.growing →
       rid ∉ (txnGet s tid).sharedSet → rid ∈ (txnGet s tid).exclSet →
       lockExclusive s tid rid = (LockRes.ret true, s)) := by
  intro s tid rid
  constructor
  · intro hg hiso hmem
    simp only [lockShared]
    rw [if_neg (by rw [hg]; simp), if_neg (by rw [hg]; simp),
        if_neg (by rw [hg]; simp), if_neg hiso, if_pos hmem]
  · intro hg hns hx
    simp only [lockExclusive]
    rw [if_neg (by rw [hg]; simp), if_neg (by rw [hg]; simp),
        if_neg (by rw [hg]; simp), if_neg hns, if_pos hx]

/-- Claim C10 amended, witness: T3 (GROWING, REPEATABLE_READ) holds S on
record 100 in `lmScene3`; re-requesting S returns true with the state
unchanged. -/
theorem claim10_relock_amended_witness :
    ((txnGet lmScene3 3).state = TxnState.growing ∧
     (txnGet lmScene3 3).iso ≠ IsoLevel.readUncommitted ∧
     100 ∈ (txnGet lmScene3 3).sharedSet) ∧
    lockShared lmScene3 3 100 = (LockRes.ret true, lmScene3) :=
  ⟨⟨by decide, by decide, by decide⟩,
   (claim10_relock_amended lmScene3 3 100).1 (by decide) (by decide) (Or.inl (by decide))⟩

end Bustub
/-! ## Claim theorems: B+-tree -/

namespace Bustub

theorem getD_drop {α : Type} :
    ∀ (l : List α) (n i : Nat) (d : α), (l.drop n).getD i d = l.getD (n + i) d := by
  intro l
  induction l with
  | nil => intro n i d; cases n <;> rfl
  | cons x xs ih =>
    intro n i d
    cases n with
    | zero => rw [Nat.zero_add, List.drop_zero]
    | succ m =>
      show (xs.drop m).getD i d = (x :: xs).getD (m + 1 + i) d
      rw [show m + 1 + i = (m + i) + 1 by omega]
      show (xs.drop m).getD i d = xs.getD (m + i) d
      exact ih m i d

theorem getD_take_lt {α : Type} :
    ∀ (l : List α) (n i : Nat) (d : α), i < n → (l.take n).getD i d = l.getD i d := by
  intro l
  induction l with
  | nil => intro n i d _; cases n <;> rfl
  | cons x xs ih =>
    intro n i d h
    cases n with
    | zero => omega
    | succ m =>
      cases i with
      | zero => rfl
      | succ j =>
        show (xs.take m).getD j d = xs.getD j d
        exact ih m j d (by omega)

/-- Claim C3: when an insert fills a leaf to `max_leaf` (so `size =
max_leaf`), the split step moves exactly the entries from `size / 2`
upward into the freshly allocated leaf, keeps the lower half, splices
the sibling chain — the new leaf inherits the old `next_leaf` and the
old leaf now points at the new page — and the key popped up to the
parent (`KeyAt(MiddleIndex())`) equals the new leaf's first key. -/
theorem claim3_leaf_split :
    ∀ (l : LeafPage) (newId : Int),
      l.slots.length = l.maxSize →
      l.size = l.maxSize →
      2 ≤ l.maxSize →
      leafEntries (leafSplitStep l.maxSize l newId).1 = (leafEntries l).take (l.size / 2) ∧
      leafEntries (leafSplitStep l.maxSize l newId).2 = (leafEntries l).drop (l.size / 2) ∧
      (leafSplitStep l.maxSize l newId).1.size = l.size / 2 ∧
      (leafSplitStep l.maxSize l newId).2.size = l.size - l.size / 2 ∧
      (leafSplitStep l.maxSize l newId).2.next = l.next ∧
      (leafSplitStep l.maxSize l newId).1.next = newId ∧
      leafKeyAt l (middleIndex l.size) = leafKeyAt (leafSplitStep l.maxSize l newId).2 0 := by
  intro l newId hlen hsz hmax
  have hmidle : l.size / 2 ≤ l.size := Nat.div_le_self _ _
  have hcntpos : 1 ≤ l.size - l.size / 2 := by omega
  have hseglen : ((l.slots.drop (l.size / 2)).take (l.size - l.size / 2)).length
      = l.size - l.size / 2 := by
    rw [List.length_take, List.length_drop, hlen, ← hsz]
    omega
  refine ⟨?_, ?_, rfl, rfl, rfl, rfl, ?_⟩
  · show l.slots.take (l.size / 2) = (l.slots.take l.size).take (l.size / 2)
    rw [List.take_take, Nat.min_eq_left hmidle]
  · show (((l.slots.drop (l.size / 2)).take (l.size - l.size / 2)) ++
        (List.replicate l.maxSize ((0 : Nat), (0 : Nat))).drop (l.size - l.size / 2)).take
          (l.size - l.size / 2) =
      (l.slots.take l.size).drop (l.size / 2)
    rw [List.take_left' hseglen, List.drop_take]
  · show (l.slots.getD (l.size / 2) (0, 0)).1 =
      (((((l.slots.drop (l.size / 2)).take (l.size - l.size / 2)) ++
        (List.replicate l.maxSize ((0 : Nat), (0 : Nat))).drop (l.size - l.size / 2))).getD 0 (0, 0)).1
    rw [List.getD_append _ _ _ _ (by rw [hseglen]; omega)]
    rw [getD_take_lt _ _ _ _ (by omega), getD_drop, Nat.add_zero]

/-- Claim C3, witness: the full leaf `[(1,10), (2,20), (3,30), (4,40)]`
with `max_leaf = 4` splits into `[(1,10), (2,20)]` and
`[(3,30), (4,40)]`, with popup key 3 = the new leaf's first key. -/
theorem claim3_leaf_split_witness :
    (leafScene.slots.length = leafScene.maxSize ∧ leafScene.size = leafScene.maxSize ∧
      2 ≤ leafScene.maxSize) ∧
    (leafEntries (leafSplitStep leafScene.maxSize leafScene 7).2 = [(3, 30), (4, 40)] ∧
     leafKeyAt leafScene (middleIndex leafScene.size) = 3) := by
  constructor
  · exact ⟨by decide, by decide, by decide⟩
  · have h := claim3_leaf_split leafScene 7 (by decide) (by decide) (by decide)
    refine ⟨?_, ?_⟩
    · rw [h.2.1]; decide
    · have h7 := h.2.2.2.2.2.2
      rw [h7]; decide

/-- Claim C2, evaluation at the failing input.  The duplicate-reject
half holds (re-inserting key 4 into the tree holding 4 and 3 returns
false and `get` keeps the first value), but the fresh-key half fails:
with `leaf_max = 4`, after inserting 4, 3, 2, 1 and removing 2 and 4,
the root leaf holds entries 1, 3 while slot 2 retains a stale copy of
key 4; `Insert(4)`'s duplicate probe reads that stale slot at
`index = size` and wrongly reports a duplicate, so the insert returns
false and key 4 is still absent afterwards. -/
theorem claim2_insert_eval :
    (treeInsert btB 4 77).1 = false ∧
    treeGetValue (treeInsert btB 4 77).2 4 = some 40 ∧
    treeGetValue btF 4 = none ∧
    treeGetValue btF 1 = some 10 ∧
    treeGetValue btF 3 = some 30 ∧
    (treeInsert btF 4 99).1 = false ∧
    treeGetValue (treeInsert btF 4 99).2 4 = none := by decide

end Bustub
